import Mathlib

/-!
Verification of the MapReduce-rs core against its specification.

The definitions below are a shallow embedding of the Rust sources:
`src/mr/function.rs` (the word-count map/reduce pair),
`src/mr/worker.rs` (the worker runtime: hashing, partitioning, the
reduce grouping loop, and the file operations it issues), and
`src/mr/coordinator.rs` (the coordinator state machine: task dispatch,
completion reports, lease renewal and the stale-lease sweeper).

Machine integers (`i32`, `u64`) are embedded as `Int`/`Nat` with explicit
wrap-around where the code can overflow; Rust `HashMap`s become
association lists, and the unspecified `HashMap` iteration order becomes
an explicit `order` parameter; a Rust `assert!`/`panic!`-style fatal path
becomes an `Option` result (`none` = the process aborts).
-/

namespace MapReduce

/-! ### Association lists (embedding of `HashMap<i32, V>`) -/

/-- Lookup the value bound to key `k` (first matching entry). -/
def lookupA {β : Type} (l : List (Int × β)) (k : Int) : Option β :=
  (l.find? (fun p => p.1 == k)).map Prod.snd

/-- Insert/overwrite the binding of `k` (embedding of `HashMap::insert`). -/
def insertA {β : Type} (l : List (Int × β)) (k : Int) (v : β) : List (Int × β) :=
  (k, v) :: l.filter (fun p => p.1 != k)

/-- Remove the binding of `k` (embedding of `HashMap::remove_entry`). -/
def eraseA {β : Type} (l : List (Int × β)) (k : Int) : List (Int × β) :=
  l.filter (fun p => p.1 != k)

/-! ### `src/mr/function.rs` — the word-count application -/

/-- A key/value pair, from `worker.rs`'s `KeyValue` struct. -/
structure KeyValue where
  key : String
  value : String
deriving DecidableEq, Repr

/-- A character matched by the regex class `\w` (word character);
the inputs in scope are ASCII, where `\w = [A-Za-z0-9_]`. -/
def isWordChar (c : Char) : Bool :=
  c.isAlphanum || c == '_'

/-- Embedding of `re.replace_all(input, "")` for the single-character
class `[^\w\s]`: every character that is neither a word character nor
whitespace is deleted. -/
def stripNonWord (input : String) : String :=
  ⟨input.data.filter (fun c => isWordChar c || c.isWhitespace)⟩

/-- Embedding of Rust `str::split_whitespace` on a character list:
maximal non-whitespace runs, no empty items. -/
def splitWS : List Char → List String
  | [] => []
  | c :: cs =>
      if c.isWhitespace then splitWS cs
      else
        match splitWS cs with
        | [] => [⟨[c]⟩]
        | w :: ws =>
            if cs ≠ [] ∧ ¬ (cs.headI.isWhitespace) then ⟨c :: w.data⟩ :: ws
            else ⟨[c]⟩ :: w :: ws

/-- `wc::map`: strip punctuation, split on whitespace, emit `(word, "1")`. -/
def wcMap (input : String) : List KeyValue :=
  (splitWS (stripNonWord input).data).map (fun w => KeyValue.mk w "1")

/-- `wc::reduce`: the count is the number of collected values. -/
def wcReduce (_key : String) (values : List String) : String :=
  toString values.length

/-! ### `Worker::reduce` — sorting, grouping and the output lines -/

/-- Lexicographic strict order on character lists — the order
`String::cmp` induces (byte-wise comparison of UTF-8 agrees with
codepoint-wise comparison). -/
def charListLt : List Char → List Char → Bool
  | [], [] => false
  | [], _ :: _ => true
  | _ :: _, [] => false
  | a :: as, b :: bs =>
      if a < b then true
      else if b < a then false
      else charListLt as bs

/-- `lhs.key.cmp(&rhs.key) == Less`. -/
def keyLt (a b : String) : Bool := charListLt a.data b.data

/-- Insert a pair into a key-sorted list, after every strictly smaller
key and before equal ones that were already present later — the
placement a stable sort gives an element relative to the already-sorted
remainder to its right. -/
def insertByKey (kv : KeyValue) : List KeyValue → List KeyValue
  | [] => [kv]
  | x :: xs =>
      if keyLt x.key kv.key then x :: insertByKey kv xs
      else kv :: x :: xs

/-- Embedding of `sort_by(|lhs, rhs| lhs.key.cmp(&rhs.key))`: a stable
sort ascending by key (Rust's `sort_by` is stable; any stable sort by
the same comparator produces the same list). -/
def sortByKey : List KeyValue → List KeyValue
  | [] => []
  | kv :: rest => insertByKey kv (sortByKey rest)

/-- The grouping loop of `Worker::reduce`, transcribed statement by
statement: `prev` is the key of the group being collected, `kvVec` its
values so far.  A line `"{prev} {reduce(prev, kvVec)}\n"` is emitted only
when a *different* key is encountered; when the input list ends the loop
simply stops, emitting nothing for the group still in `kvVec`. -/
def reduceLoop (pairs : List KeyValue) (prev : String) (kvVec : List String) :
    List String :=
  match pairs with
  | [] => []
  | kv :: rest =>
      let prev1 := if prev = "" then kv.key else prev
      if kv.key ≠ prev1 then
        (prev1 ++ " " ++ wcReduce prev1 kvVec ++ "\n")
          :: reduceLoop rest kv.key [kv.value]
      else
        reduceLoop rest prev1 (kvVec ++ [kv.value])

/-- The lines `Worker::reduce` writes to `mr-{j}.txt`, in order. -/
def reduceOutputLines (pairs : List KeyValue) : List String :=
  reduceLoop (sortByKey pairs) "" []

/-- Correct grouping of consecutive equal keys (for comparison with the
spec's description of reduce execution): every group produces an entry,
including the final one. -/
def groupByKey : List KeyValue → List (String × List String)
  | [] => []
  | kv :: rest =>
      match groupByKey rest with
      | [] => [(kv.key, [kv.value])]
      | (k, vs) :: gs =>
          if kv.key = k then (k, kv.value :: vs) :: gs
          else (kv.key, [kv.value]) :: (k, vs) :: gs

/-- Modelled from the spec: the reduce output required by §4.3 — "for
each group call `reduce_fn(key, [values])` … one `KEY␠RESULT\n` line per
group, in ascending key order". -/
def specReduceLines (pairs : List KeyValue) : List String :=
  (groupByKey (sortByKey pairs)).map
    (fun g => g.1 ++ " " ++ wcReduce g.1 g.2 ++ "\n")

/-- Modelled from the spec: the reference word-count of an input, "as
computed by `wc::map` and `wc::reduce` over the concatenated inputs". -/
def specWordCount (input : String) : List (String × String) :=
  (groupByKey (sortByKey (wcMap input))).map
    (fun g => (g.1, wcReduce g.1 g.2))

/-! ### `Worker::cal_hash_for_key` — `DefaultHasher` (SipHash-1-3)

`cal_hash_for_key` builds `DefaultHasher::new()`, feeds the key through
`Hash` and returns `finish()`.  The standard library's `DefaultHasher::new`
is SipHash-1-3 with the fixed keys `(0, 0)` (unlike `RandomState`, which
draws fresh random keys once per process); hashing a `&str` feeds its
UTF-8 bytes followed by a single `0xff` byte. -/

/-- 64-bit wrap-around. -/
def wrap64 (x : Nat) : Nat := x % 18446744073709551616

/-- 64-bit left rotation of a value `x < 2^64`. -/
def rotl64 (x b : Nat) : Nat := wrap64 (x <<< b) ||| (x >>> (64 - b))

/-- The four 64-bit lanes of the SipHash state. -/
structure SipState where
  v0 : Nat
  v1 : Nat
  v2 : Nat
  v3 : Nat
deriving DecidableEq, Repr

/-- One SipHash round. -/
def sipRound (s : SipState) : SipState :=
  let a0 := wrap64 (s.v0 + s.v1)
  let a1 := rotl64 s.v1 13
  let b1 := a1 ^^^ a0
  let b0 := rotl64 a0 32
  let a2 := wrap64 (s.v2 + s.v3)
  let a3 := rotl64 s.v3 16
  let b3 := a3 ^^^ a2
  let c0 := wrap64 (b0 + b3)
  let c3 := rotl64 b3 21
  let d3 := c3 ^^^ c0
  let c2 := wrap64 (a2 + b1)
  let c1 := rotl64 b1 17
  let d1 := c1 ^^^ c2
  let d2 := rotl64 c2 32
  ⟨c0, d1, d2, d3⟩

/-- The SipHash initial state for keys `(k0, k1)`. -/
def sipInit (k0 k1 : Nat) : SipState :=
  ⟨k0 ^^^ 0x736f6d6570736575, k1 ^^^ 0x646f72616e646f6d,
   k0 ^^^ 0x6c7967656e657261, k1 ^^^ 0x7465646279746573⟩

/-- Compression of one 64-bit message word (one round in SipHash-1-3). -/
def sipCompress (s : SipState) (m : Nat) : SipState :=
  let s1 := sipRound { s with v3 := s.v3 ^^^ m }
  { s1 with v0 := s1.v0 ^^^ m }

/-- Finalization (three rounds in SipHash-1-3). -/
def sipFinalize (s : SipState) : Nat :=
  let s1 := sipRound (sipRound (sipRound { s with v2 := s.v2 ^^^ 0xff }))
  s1.v0 ^^^ s1.v1 ^^^ s1.v2 ^^^ s1.v3

/-- Little-endian word value of at most eight bytes. -/
def leWord : List Nat → Nat
  | [] => 0
  | b :: rest => b + 256 * leWord rest

/-- Main SipHash loop: full 8-byte blocks, then the length-tagged tail. -/
def sipLoop (s : SipState) (len : Nat) : List Nat → Nat
  | b0 :: b1 :: b2 :: b3 :: b4 :: b5 :: b6 :: b7 :: rest =>
      sipLoop (sipCompress s (leWord [b0, b1, b2, b3, b4, b5, b6, b7])) len rest
  | tail =>
      sipFinalize (sipCompress s (wrap64 (((len % 256) <<< 56) + leWord tail)))

/-- SipHash-1-3 of a byte sequence under keys `(k0, k1)`. -/
def sipHash13 (k0 k1 : Nat) (data : List Nat) : Nat :=
  sipLoop (sipInit (wrap64 k0) (wrap64 k1)) data.length data

/-- UTF-8 encoding of one character. -/
def utf8EncodeChar (c : Char) : List Nat :=
  let n := c.toNat
  if n < 0x80 then [n]
  else if n < 0x800 then
    [0xC0 ||| (n >>> 6), 0x80 ||| (n &&& 0x3F)]
  else if n < 0x10000 then
    [0xE0 ||| (n >>> 12), 0x80 ||| ((n >>> 6) &&& 0x3F), 0x80 ||| (n &&& 0x3F)]
  else
    [0xF0 ||| (n >>> 18), 0x80 ||| ((n >>> 12) &&& 0x3F),
     0x80 ||| ((n >>> 6) &&& 0x3F), 0x80 ||| (n &&& 0x3F)]

/-- UTF-8 bytes of a string. -/
def utf8Bytes (s : String) : List Nat :=
  (s.data.map utf8EncodeChar).flatten

/-- The bytes `Hash for str` feeds to the hasher: UTF-8 bytes then `0xff`. -/
def strHashBytes (s : String) : List Nat := utf8Bytes s ++ [0xff]

/-- The fixed keys of `DefaultHasher::new()`. -/
def defaultHasherKeys : Nat × Nat := (0, 0)

/-- `Worker::cal_hash_for_key`: hash the key with `DefaultHasher::new()`. -/
def calHashForKey (key : String) : Nat :=
  sipHash13 defaultHasherKeys.1 defaultHasherKeys.2 (strHashBytes key)

/-- `cal_hash_for_key` as evaluated inside a process whose per-process
random state is `procRandom`: the code builds `DefaultHasher::new()`
(fixed keys), not a `RandomState` hasher, so `procRandom` is never
consulted. -/
def calHashForKeyInProc (_procRandom : Nat × Nat) (key : String) : Nat :=
  calHashForKey key

/-- The partition index `cal_hash_for_key(key) % reduce_n` computed by a
process with random state `procRandom` (worker.rs line 149). -/
def partitionIndexInProc (procRandom : Nat × Nat) (reduceN : Nat)
    (key : String) : Nat :=
  calHashForKeyInProc procRandom key % reduceN

/-! ### Worker state and the file operations a worker issues -/

/-- The `Worker` struct of `worker.rs`. -/
structure WorkerSt where
  state : Bool
  map_task_id : Int
  reduce_task_id : Int
  map_n : Int
  reduce_n : Int
deriving DecidableEq, Repr

/-- `Worker::new`. -/
def workerNew (mapN reduceN : Int) : WorkerSt :=
  ⟨false, -1, -1, mapN, reduceN⟩

/-- Intermediate file name `mr-{i}-{j}.txt`. -/
def interFileName (mapId : Int) (j : Nat) : String :=
  "mr-" ++ toString mapId ++ "-" ++ toString j ++ ".txt"

/-- Final output file name `mr-{j}.txt`. -/
def outFileName (reduceId : Int) : String :=
  "mr-" ++ toString reduceId ++ ".txt"

/-- A filesystem operation a worker can issue. -/
inductive FsOp where
  | create (name : String)
  | write (name : String) (data : String)
  | renameTo (src : String) (dst : String)
deriving DecidableEq, Repr

/-- Whether an operation is a rename. -/
def FsOp.isRen : FsOp → Bool
  | .renameTo _ _ => true
  | _ => false

/-- The ordered filesystem operations of `Worker::write_key_value_to_file`:
create `mr-{map_task_id}-{i}.txt` for every `i < reduce_n`, then append
each pair's line `"{key} {value}\n"` to the file picked by
`cal_hash_for_key(key) % reduce_n`.  No temporary file and no rename. -/
def writeKeyValueTrace (w : WorkerSt) (pairs : List KeyValue) : List FsOp :=
  ((List.range w.reduce_n.toNat).map
      (fun j => FsOp.create (interFileName w.map_task_id j)))
    ++ pairs.map (fun kv =>
        FsOp.write
          (interFileName w.map_task_id (calHashForKey kv.key % w.reduce_n.toNat))
          (kv.key ++ " " ++ kv.value ++ "\n"))

/-- The ordered filesystem operations of `Worker::reduce`: create
`mr-{reduce_task_id}.txt`, then write each emitted group line. -/
def reduceTrace (w : WorkerSt) (pairs : List KeyValue) : List FsOp :=
  FsOp.create (outFileName w.reduce_task_id)
    :: (reduceOutputLines pairs).map
        (fun line => FsOp.write (outFileName w.reduce_task_id) line)

/-- Whether `op` renames some distinct temporary onto `final`. -/
def renamesOnto (op : FsOp) (final : String) : Bool :=
  match op with
  | .renameTo src dst => dst == final && src != final
  | _ => false

/-- Modelled from the spec (§4.3 Atomicity): the file `final` is produced
by "a fresh temporary file and atomic rename upon close" — some operation
renames a distinct temporary onto `final`, and `final` itself is never
created directly. -/
def WrittenAtomicallySpec (tr : List FsOp) (final : String) : Prop :=
  (∃ op ∈ tr, renamesOnto op final = true) ∧
    ∀ op ∈ tr, op ≠ FsOp.create final

/-- The content of intermediate file `mr-{map_task_id}-{j}.txt` after
`Worker::map` on `input`: the concatenation, in pair order, of the lines
of the pairs whose partition index is `j`. -/
def intermediateContent (w : WorkerSt) (input : String) (j : Nat) : String :=
  String.join ((wcMap input).filterMap (fun kv =>
    if calHashForKey kv.key % w.reduce_n.toNat = j then
      some (kv.key ++ " " ++ kv.value ++ "\n")
    else none))

/-- Split a character list at every occurrence of `sep`, keeping empty
pieces — the behaviour of Rust's `str::split` with a one-character
pattern. -/
def splitOnCharList (sep : Char) : List Char → List (List Char)
  | [] => [[]]
  | c :: cs =>
      if c = sep then [] :: splitOnCharList sep cs
      else
        match splitOnCharList sep cs with
        | [] => [[c]]
        | w :: ws => (c :: w) :: ws

/-- `str::split` with a one-character separator, on strings. -/
def splitChar (sep : Char) (s : String) : List String :=
  (splitOnCharList sep s.data).map (fun cs => ⟨cs⟩)

/-- Parse one line of an intermediate file, as
`Worker::read_file_to_mem_reduce` does: split on a single space, assert
exactly two fields. -/
def parseLine (line : String) : Option KeyValue :=
  match splitChar ' ' line with
  | [k, v] => some (KeyValue.mk k v)
  | _ => none

/-- Parse a whole intermediate file: split on newlines, drop empties,
parse each line (`none` = the worker's `assert!(line.len() == 2)` fires). -/
def parsePairs (contents : String) : Option (List KeyValue) :=
  ((splitChar '\n' contents).filter (fun x => ¬ x.isEmpty)).mapM parseLine

/-! ### `src/mr/coordinator.rs` — the coordinator state machine

The immutable configuration `(map_n, reduce_n, worker_n)` is separated
from the mutable state.  `Instant`s are seconds as `Nat`; each RPC takes
the current time `now` where the code reads `Instant::now()`.  A failed
`assert!`/`unwrap` aborts the coordinator process: such paths return
`none`.  The unspecified `HashMap` iteration order of the re-dispatch
scan is an explicit `order` argument, constrained by `IterOrder` to
visit exactly the map's keys, once each. -/

/-- The `(map_n, reduce_n, worker_n)` configuration of `Coordinator::new`. -/
structure Config where
  map_n : Int
  reduce_n : Int
  worker_n : Int
deriving DecidableEq, Repr

/-- The mutable fields of `Coordinator`. -/
structure CState where
  map_tasks : List (Int × Bool)
  map_id : Int
  reduce_tasks : List (Int × Bool)
  reduce_id : Int
  map_finish : Bool
  reduce_finish : Bool
  worker_id : Int
  map_leases : List (Int × Nat)
  reduce_leases : List (Int × Nat)
deriving DecidableEq, Repr

/-- The state built by `Coordinator::new`. -/
def initState : CState :=
  ⟨[], 0, [], 0, false, false, 0, [], []⟩

/-- `Coordinator::prepare`: all `worker_n` workers have registered. -/
def prepare (cfg : Config) (s : CState) : Bool :=
  s.worker_id == cfg.worker_n

/-- `Coordinator::done`. -/
def doneC (s : CState) : Bool :=
  s.map_finish && s.reduce_finish

/-- `get_worker_id`: panics (`assert!(cur_num != self.worker_n)`) when
`worker_n` workers have already registered, otherwise hands out the
counter and increments it. -/
def getWorkerId (cfg : Config) (s : CState) : Option (Int × CState) :=
  if s.worker_id = cfg.worker_n then none
  else some (s.worker_id, { s with worker_id := s.worker_id + 1 })

/-- The first key of `order` whose task status is `false` — the
re-dispatch scan `for (&k, &v) in &cur_map_tasks.clone()` under the
iteration order `order`. -/
def firstFalseKey (tasks : List (Int × Bool)) (order : List Int) : Option Int :=
  order.find? (fun k => lookupA tasks k == some false)

/-- A valid `HashMap` iteration order: each key exactly once. -/
def IterOrder {β : Type} (m : List (Int × β)) (order : List Int) : Prop :=
  order.Nodup ∧ ∀ k, k ∈ order ↔ k ∈ m.map Prod.fst

/-- `get_map_task` (coordinator.rs lines 279–333). -/
def getMapTask (cfg : Config) (order : List Int) (now : Nat) (s : CState) :
    Option (Int × CState) :=
  if ¬ prepare cfg s then some (-2, s)
  else if s.map_id = cfg.map_n ∨ s.map_finish then
    match firstFalseKey s.map_tasks order with
    | some k =>
        if (lookupA s.map_leases k).isSome then none
        else some (k, { s with
          map_tasks := insertA s.map_tasks k true,
          map_leases := insertA s.map_leases k now })
    | none =>
        if s.map_leases.isEmpty then some (-1, s) else some (-3, s)
  else
    some (s.map_id, { s with
      map_tasks := insertA s.map_tasks s.map_id true,
      map_leases := insertA s.map_leases s.map_id now,
      map_id := s.map_id + 1 })

/-- `get_reduce_task` (coordinator.rs lines 336–385). -/
def getReduceTask (cfg : Config) (order : List Int) (now : Nat) (s : CState) :
    Option (Int × CState) :=
  if ¬ s.map_finish then some (-2, s)
  else if s.reduce_id = cfg.reduce_n ∨ s.reduce_finish then
    match firstFalseKey s.reduce_tasks order with
    | some k =>
        if (lookupA s.reduce_leases k).isSome then none
        else some (k, { s with
          reduce_tasks := insertA s.reduce_tasks k true,
          reduce_leases := insertA s.reduce_leases k now })
    | none =>
        if s.reduce_leases.isEmpty then some (-1, s) else some (-3, s)
  else
    some (s.reduce_id, { s with
      reduce_tasks := insertA s.reduce_tasks s.reduce_id true,
      reduce_leases := insertA s.reduce_leases s.reduce_id now,
      reduce_id := s.reduce_id + 1 })

/-- `report_map_task_finish` (coordinator.rs lines 404–446): assert the
task's status entry is `true` and a lease is outstanding, drop the
lease, then set `map_finish` when no staled task remains, no lease is
outstanding and all ids are handed out.  (`serialize` only writes the
WAL file and mutates no coordinator state.) -/
def reportMapTaskFinish (cfg : Config) (id : Int) (s : CState) :
    Option (Bool × CState) :=
  if lookupA s.map_tasks id ≠ some true then none
  else if ¬ (lookupA s.map_leases id).isSome then none
  else if s.map_tasks.any (fun p => p.2 == false) then
    some (true, { s with map_leases := eraseA s.map_leases id })
  else if ¬ (eraseA s.map_leases id).isEmpty then
    some (true, { s with map_leases := eraseA s.map_leases id })
  else if s.map_id = cfg.map_n then
    some (true, { s with map_leases := eraseA s.map_leases id, map_finish := true })
  else some (true, { s with map_leases := eraseA s.map_leases id })

/-- `report_reduce_task_finish` (coordinator.rs lines 449–491). -/
def reportReduceTaskFinish (cfg : Config) (id : Int) (s : CState) :
    Option (Bool × CState) :=
  if lookupA s.reduce_tasks id ≠ some true then none
  else if ¬ (lookupA s.reduce_leases id).isSome then none
  else if s.reduce_tasks.any (fun p => p.2 == false) then
    some (true, { s with reduce_leases := eraseA s.reduce_leases id })
  else if ¬ (eraseA s.reduce_leases id).isEmpty then
    some (true, { s with reduce_leases := eraseA s.reduce_leases id })
  else if s.reduce_id = cfg.reduce_n then
    some (true, { s with reduce_leases := eraseA s.reduce_leases id, reduce_finish := true })
  else some (true, { s with reduce_leases := eraseA s.reduce_leases id })

/-- `renew_map_lease`: assert the lease exists, then refresh it. -/
def renewMapLease (id : Int) (now : Nat) (s : CState) :
    Option (Bool × CState) :=
  if (lookupA s.map_leases id).isSome then
    some (true, { s with map_leases := insertA s.map_leases id now })
  else none

/-- `renew_reduce_lease`: assert the lease exists, then refresh it. -/
def renewReduceLease (id : Int) (now : Nat) (s : CState) :
    Option (Bool × CState) :=
  if (lookupA s.reduce_leases id).isSome then
    some (true, { s with reduce_leases := insertA s.reduce_leases id now })
  else none

/-- The ids whose lease has not been renewed for at least five seconds. -/
def staleKeys (leases : List (Int × Nat)) (now : Nat) : List Int :=
  (leases.filter (fun p => 5 ≤ now - p.2)).map Prod.fst

/-- Demote every staled id's status entry to `false`. -/
def sweepTasks (tasks : List (Int × Bool)) (stale : List Int) :
    List (Int × Bool) :=
  tasks.map (fun p => if p.1 ∈ stale then (p.1, false) else p)

/-- Keep only the leases younger than five seconds. -/
def freshLeases (leases : List (Int × Nat)) (now : Nat) : List (Int × Nat) :=
  leases.filter (fun p => ¬ 5 ≤ now - p.2)

/-- `Coordinator::check_lease` (lines 72–131), the periodic sweeper: done
job – nothing to do; reduce phase – demote staled reduce tasks; map
phase – demote staled map tasks.  The `assert!` that every staled id's
status is currently `true` aborts the process on violation. -/
def checkLease (now : Nat) (s : CState) : Option CState :=
  if s.map_finish ∧ s.reduce_finish then some s
  else if s.map_finish then
    if (staleKeys s.reduce_leases now).all
        (fun k => lookupA s.reduce_tasks k == some true) then
      some { s with
        reduce_tasks := sweepTasks s.reduce_tasks (staleKeys s.reduce_leases now),
        reduce_leases := freshLeases s.reduce_leases now }
    else none
  else
    if (staleKeys s.map_leases now).all
        (fun k => lookupA s.map_tasks k == some true) then
      some { s with
        map_tasks := sweepTasks s.map_tasks (staleKeys s.map_leases now),
        map_leases := freshLeases s.map_leases now }
    else none

/-! ### The step relation: any interleaving of the seven RPCs and the sweeper -/

/-- One atomic coordinator operation (each RPC handler runs under the
coordinator's locks, as does the sweeper). -/
inductive Step (cfg : Config) : CState → CState → Prop
  | workerId {s s' : CState} {r : Int} :
      getWorkerId cfg s = some (r, s') → Step cfg s s'
  | mapTask {s s' : CState} {r : Int} (order : List Int) (now : Nat) :
      IterOrder s.map_tasks order →
      getMapTask cfg order now s = some (r, s') → Step cfg s s'
  | reduceTask {s s' : CState} {r : Int} (order : List Int) (now : Nat) :
      IterOrder s.reduce_tasks order →
      getReduceTask cfg order now s = some (r, s') → Step cfg s s'
  | reportMap {s s' : CState} {r : Bool} (id : Int) :
      reportMapTaskFinish cfg id s = some (r, s') → Step cfg s s'
  | reportReduce {s s' : CState} {r : Bool} (id : Int) :
      reportReduceTaskFinish cfg id s = some (r, s') → Step cfg s s'
  | renewMap {s s' : CState} {r : Bool} (id : Int) (now : Nat) :
      renewMapLease id now s = some (r, s') → Step cfg s s'
  | renewReduce {s s' : CState} {r : Bool} (id : Int) (now : Nat) :
      renewReduceLease id now s = some (r, s') → Step cfg s s'
  | lease {s s' : CState} (now : Nat) :
      checkLease now s = some s' → Step cfg s s'

/-- A coordinator state reachable from `Coordinator::new` by some
interleaving of the operations. -/
def Reachable (cfg : Config) (s : CState) : Prop :=
  Relation.ReflTransGen (Step cfg) initState s

/-! ### Task-state views (the spec's three-valued task state)

With the source's status encoding — the entry is set `true` at dispatch —
the spec's states read back as: never dispatched = no entry; `IN_FLIGHT`
= entry `true` with an outstanding lease; `PENDING` after the sweeper =
entry `false`; `DONE` = entry `true` with no lease. -/

/-- Map task `k` is `DONE`: dispatched and reported, lease dropped. -/
def MapDoneT (s : CState) (k : Int) : Prop :=
  lookupA s.map_tasks k = some true ∧ lookupA s.map_leases k = none

/-- Reduce task `k` is `DONE`. -/
def ReduceDoneT (s : CState) (k : Int) : Prop :=
  lookupA s.reduce_tasks k = some true ∧ lookupA s.reduce_leases k = none

/-- Map task `k` is `IN_FLIGHT`: dispatched, lease outstanding. -/
def MapInFlightT (s : CState) (k : Int) : Prop :=
  lookupA s.map_tasks k = some true ∧ (lookupA s.map_leases k).isSome

/-- Reduce task `k` is `IN_FLIGHT`. -/
def ReduceInFlightT (s : CState) (k : Int) : Prop :=
  lookupA s.reduce_tasks k = some true ∧ (lookupA s.reduce_leases k).isSome

/-- Every map task is `DONE`. -/
def AllMapDone (cfg : Config) (s : CState) : Prop :=
  ∀ k : Int, 0 ≤ k → k < cfg.map_n → MapDoneT s k

/-- Every reduce task is `DONE`. -/
def AllReduceDone (cfg : Config) (s : CState) : Prop :=
  ∀ k : Int, 0 ≤ k → k < cfg.reduce_n → ReduceDoneT s k

/-- The successor state of a fresh map dispatch: task `map_id` is
materialized `IN_FLIGHT` with a lease stamped `now` and the counter is
bumped. -/
def freshMapDispatch (now : Nat) (s : CState) : CState :=
  { s with
    map_tasks := insertA s.map_tasks s.map_id true,
    map_leases := insertA s.map_leases s.map_id now,
    map_id := s.map_id + 1 }

/-- The successor state of a map re-dispatch of task `k`: its status
entry returns to `true` and a fresh lease stamped `now` is taken. -/
def promoteMap (k : Int) (now : Nat) (s : CState) : CState :=
  { s with
    map_tasks := insertA s.map_tasks k true,
    map_leases := insertA s.map_leases k now }

/-- The successor state of a fresh reduce dispatch. -/
def freshReduceDispatch (now : Nat) (s : CState) : CState :=
  { s with
    reduce_tasks := insertA s.reduce_tasks s.reduce_id true,
    reduce_leases := insertA s.reduce_leases s.reduce_id now,
    reduce_id := s.reduce_id + 1 }

/-- The successor state of a reduce re-dispatch of task `k`. -/
def promoteReduce (k : Int) (now : Nat) (s : CState) : CState :=
  { s with
    reduce_tasks := insertA s.reduce_tasks k true,
    reduce_leases := insertA s.reduce_leases k now }

/-- The inductive invariant of the coordinator state machine. -/
structure Inv (cfg : Config) (s : CState) : Prop where
  map_id_low : 0 ≤ s.map_id
  map_id_high : s.map_id ≤ cfg.map_n
  map_keys : ∀ k : Int, (lookupA s.map_tasks k).isSome ↔ (0 ≤ k ∧ k < s.map_id)
  map_lease_task : ∀ k : Int,
    (lookupA s.map_leases k).isSome → lookupA s.map_tasks k = some true
  map_lease_nodup : (s.map_leases.map Prod.fst).Nodup
  map_tasks_nodup : (s.map_tasks.map Prod.fst).Nodup
  map_finish_done : s.map_finish = true → s.map_id = cfg.map_n ∧ AllMapDone cfg s
  map_done_finish : 0 < cfg.map_n → AllMapDone cfg s → s.map_finish = true
  worker_low : 0 ≤ s.worker_id
  worker_high : s.worker_id ≤ cfg.worker_n
  prepared_of_dispatch : 0 < s.map_id → s.worker_id = cfg.worker_n
  reduce_id_low : 0 ≤ s.reduce_id
  reduce_id_high : s.reduce_id ≤ cfg.reduce_n
  reduce_keys : ∀ k : Int,
    (lookupA s.reduce_tasks k).isSome ↔ (0 ≤ k ∧ k < s.reduce_id)
  reduce_lease_task : ∀ k : Int,
    (lookupA s.reduce_leases k).isSome → lookupA s.reduce_tasks k = some true
  reduce_lease_nodup : (s.reduce_leases.map Prod.fst).Nodup
  reduce_tasks_nodup : (s.reduce_tasks.map Prod.fst).Nodup
  reduce_finish_done : s.reduce_finish = true →
    s.reduce_id = cfg.reduce_n ∧ AllReduceDone cfg s

/-! ### Concrete runs used as witnesses

A one-worker job with one map and one reduce task (`cfg1`), and a
one-worker job with two map tasks whose leases both go stale (`cfg2`). -/

/-- Configuration `N_map = 1, N_reduce = 1, N_worker = 1`. -/
def cfg1 : Config := ⟨1, 1, 1⟩

/-- Configuration `N_map = 2, N_reduce = 1, N_worker = 1`. -/
def cfg2 : Config := ⟨2, 1, 1⟩

/-- After the single worker registered. -/
def stReg : CState := ⟨[], 0, [], 0, false, false, 1, [], []⟩

/-- After map task 0 was dispatched at time 0. -/
def stDisp : CState := ⟨[(0, true)], 1, [], 0, false, false, 1, [(0, 0)], []⟩

/-- After map task 0 was reported: the map phase is finished. -/
def stMapDone : CState := ⟨[(0, true)], 1, [], 0, true, false, 1, [], []⟩

/-- After reduce task 0 was dispatched at time 5. -/
def stRedDisp : CState :=
  ⟨[(0, true)], 1, [(0, true)], 1, true, false, 1, [], [(0, 5)]⟩

/-- After reduce task 0 was reported: the job is finished. -/
def stAllDone : CState := ⟨[(0, true)], 1, [(0, true)], 1, true, true, 1, [], []⟩

/-- Under `cfg2`: after map tasks 0 and 1 were both dispatched at time 0. -/
def stDisp2 : CState :=
  ⟨[(1, true), (0, true)], 2, [], 0, false, false, 1, [(1, 0), (0, 0)], []⟩

/-- Under `cfg2`: after the sweeper reclaimed both leases at time 5 —
map tasks 0 and 1 are both `PENDING` again. -/
def stPend2 : CState :=
  ⟨[(1, false), (0, false)], 2, [], 0, false, false, 1, [], []⟩

/-- A worker holding map task 0 with one reduce partition. -/
def wMap0 : WorkerSt := ⟨false, 0, -1, 1, 1⟩

/-- A worker holding reduce task 0. -/
def wRed0 : WorkerSt := ⟨true, -1, 0, 1, 1⟩

/-! ## Lemmas about the association-list embedding of `HashMap` -/

theorem lookupA_nil {β : Type} (k : Int) : lookupA ([] : List (Int × β)) k = none := rfl

theorem lookupA_cons {β : Type} (a : Int) (b : β) (l : List (Int × β)) (k : Int) :
    lookupA ((a, b) :: l) k = if a = k then some b else lookupA l k := by
  simp only [lookupA, List.find?]
  by_cases h : a = k
  · simp [h]
  · simp [h, beq_eq_false_iff_ne.mpr h]

theorem lookupA_filterKeyNe {β : Type} (l : List (Int × β)) (a k : Int) (hk : k ≠ a) :
    lookupA (l.filter (fun p => p.1 != a)) k = lookupA l k := by
  induction l with
  | nil => rfl
  | cons hd tl ih =>
      obtain ⟨x, b⟩ := hd
      by_cases hx : x = a
      · subst hx
        rw [List.filter_cons_of_neg (by simp), ih, lookupA_cons,
          if_neg (Ne.symm hk)]
      · rw [List.filter_cons_of_pos (by simpa using hx), lookupA_cons,
          lookupA_cons, ih]

theorem lookupA_filterKey_self {β : Type} (l : List (Int × β)) (a : Int) :
    lookupA (l.filter (fun p => p.1 != a)) a = none := by
  induction l with
  | nil => rfl
  | cons hd tl ih =>
      obtain ⟨x, b⟩ := hd
      by_cases hx : x = a
      · subst hx
        rw [List.filter_cons_of_neg (by simp)]
        exact ih
      · rw [List.filter_cons_of_pos (by simpa using hx), lookupA_cons,
          if_neg hx]
        exact ih

theorem lookupA_insertA {β : Type} (l : List (Int × β)) (a : Int) (v : β) (k : Int) :
    lookupA (insertA l a v) k = if a = k then some v else lookupA l k := by
  unfold insertA
  rw [lookupA_cons]
  by_cases h : a = k
  · simp [h]
  · simp only [h, if_false]
    exact lookupA_filterKeyNe l a k (Ne.symm h)

theorem lookupA_eraseA {β : Type} (l : List (Int × β)) (a k : Int) :
    lookupA (eraseA l a) k = if a = k then none else lookupA l k := by
  unfold eraseA
  by_cases h : a = k
  · subst h
    simp [lookupA_filterKey_self]
  · simp only [h, if_false]
    exact lookupA_filterKeyNe l a k (Ne.symm h)

theorem lookupA_isSome_iff_mem {β : Type} (l : List (Int × β)) (k : Int) :
    (lookupA l k).isSome ↔ k ∈ l.map Prod.fst := by
  induction l with
  | nil => simp [lookupA_nil]
  | cons hd tl ih =>
      obtain ⟨x, b⟩ := hd
      rw [lookupA_cons]
      by_cases hx : x = k
      · simp [hx]
      · simp [hx, ih, Ne.symm hx]

theorem lookupA_head {β : Type} (a : Int) (b : β) (l : List (Int × β)) :
    lookupA ((a, b) :: l) a = some b := by
  simp [lookupA_cons]

theorem exists_lookupA_of_ne_nil {β : Type} {l : List (Int × β)} (h : l ≠ []) :
    ∃ k, (lookupA l k).isSome := by
  cases l with
  | nil => exact absurd rfl h
  | cons hd tl => exact ⟨hd.1, by rw [show hd = (hd.1, hd.2) from rfl, lookupA_head]; rfl⟩

theorem lookupA_sweepTasks (l : List (Int × Bool)) (stale : List Int) (k : Int) :
    lookupA (sweepTasks l stale) k
      = (lookupA l k).map (fun v => if k ∈ stale then false else v) := by
  induction l with
  | nil => rfl
  | cons hd tl ih =>
      obtain ⟨x, b⟩ := hd
      show lookupA ((if x ∈ stale then (x, false) else (x, b)) :: sweepTasks tl stale) k
        = (lookupA ((x, b) :: tl) k).map (fun v => if k ∈ stale then false else v)
      by_cases hmem : x ∈ stale
      · rw [if_pos hmem, lookupA_cons, lookupA_cons]
        by_cases hx : x = k
        · subst hx
          simp [hmem]
        · rw [if_neg hx, if_neg hx, ih]
      · rw [if_neg hmem, lookupA_cons, lookupA_cons]
        by_cases hx : x = k
        · subst hx
          simp [hmem]
        · rw [if_neg hx, if_neg hx, ih]

theorem keys_sweepTasks (l : List (Int × Bool)) (stale : List Int) :
    (sweepTasks l stale).map Prod.fst = l.map Prod.fst := by
  induction l with
  | nil => rfl
  | cons hd tl ih =>
      obtain ⟨x, b⟩ := hd
      show ((if x ∈ stale then (x, false) else (x, b)) :: sweepTasks tl stale).map Prod.fst
        = x :: tl.map Prod.fst
      by_cases hmem : x ∈ stale
      · rw [if_pos hmem, List.map_cons, ih]
      · rw [if_neg hmem, List.map_cons, ih]

theorem lookupA_freshLeases {l : List (Int × Nat)} (hnd : (l.map Prod.fst).Nodup)
    (now : Nat) (k : Int) :
    lookupA (freshLeases l now) k
      = (lookupA l k).bind (fun t => if 5 ≤ now - t then none else some t) := by
  induction l with
  | nil => rfl
  | cons hd tl ih =>
      obtain ⟨x, t⟩ := hd
      rw [List.map_cons, List.nodup_cons] at hnd
      obtain ⟨hx_notin, hnd_tl⟩ := hnd
      by_cases hstale : 5 ≤ now - t
      · rw [show freshLeases ((x, t) :: tl) now = freshLeases tl now from
          List.filter_cons_of_neg (by simpa using hstale)]
        rw [lookupA_cons]
        by_cases hx : x = k
        · subst hx
          have hnone : lookupA tl x = none := by
            rw [← Option.not_isSome_iff_eq_none, lookupA_isSome_iff_mem]
            exact hx_notin
          rw [ih hnd_tl, hnone, if_pos rfl]
          simp [hstale]
        · rw [if_neg hx]
          exact ih hnd_tl
      · rw [show freshLeases ((x, t) :: tl) now = (x, t) :: freshLeases tl now from
          List.filter_cons_of_pos (by simpa using hstale)]
        rw [lookupA_cons, lookupA_cons]
        by_cases hx : x = k
        · rw [if_pos hx, if_pos hx]
          simp [hstale]
        · rw [if_neg hx, if_neg hx]
          exact ih hnd_tl

theorem mem_staleKeys {l : List (Int × Nat)} (hnd : (l.map Prod.fst).Nodup)
    (now : Nat) (k : Int) :
    k ∈ staleKeys l now ↔ ∃ t, lookupA l k = some t ∧ 5 ≤ now - t := by
  induction l with
  | nil => simp [staleKeys, lookupA_nil]
  | cons hd tl ih =>
      obtain ⟨x, t⟩ := hd
      rw [List.map_cons, List.nodup_cons] at hnd
      obtain ⟨hx_notin, hnd_tl⟩ := hnd
      by_cases hstale : 5 ≤ now - t
      · rw [show staleKeys ((x, t) :: tl) now = x :: staleKeys tl now from by
          unfold staleKeys
          rw [List.filter_cons_of_pos (by simpa using hstale), List.map_cons]]
        rw [List.mem_cons, lookupA_cons]
        by_cases hx : x = k
        · subst hx
          simp [hstale]
        · rw [if_neg hx]
          simpa [Ne.symm hx] using ih hnd_tl
      · rw [show staleKeys ((x, t) :: tl) now = staleKeys tl now from by
          unfold staleKeys
          rw [List.filter_cons_of_neg (by simpa using hstale)]]
        rw [lookupA_cons]
        by_cases hx : x = k
        · subst hx
          have hnone : lookupA tl x = none := by
            rw [← Option.not_isSome_iff_eq_none, lookupA_isSome_iff_mem]
            exact hx_notin
          rw [if_pos rfl, ih hnd_tl, hnone]
          constructor
          · rintro ⟨t', ht', _⟩
            exact absurd ht' (by simp)
          · rintro ⟨t', ht', hst⟩
            cases Option.some.inj ht'
            exact absurd hst hstale
        · rw [if_neg hx]
          exact ih hnd_tl

theorem keys_nodup_insertA {β : Type} {l : List (Int × β)}
    (hnd : (l.map Prod.fst).Nodup) (a : Int) (v : β) :
    ((insertA l a v).map Prod.fst).Nodup := by
  unfold insertA
  rw [List.map_cons, List.nodup_cons]
  refine ⟨?_, (l.filter_sublist.map Prod.fst).nodup hnd⟩
  intro hmem
  obtain ⟨p, hp, hpa⟩ := List.mem_map.mp hmem
  have := List.of_mem_filter hp
  simp only [bne_iff_ne, ne_eq, decide_eq_true_eq] at this
  exact this hpa

theorem keys_nodup_eraseA {β : Type} {l : List (Int × β)}
    (hnd : (l.map Prod.fst).Nodup) (a : Int) :
    ((eraseA l a).map Prod.fst).Nodup :=
  (l.filter_sublist.map Prod.fst).nodup hnd

theorem keys_nodup_freshLeases {l : List (Int × Nat)}
    (hnd : (l.map Prod.fst).Nodup) (now : Nat) :
    ((freshLeases l now).map Prod.fst).Nodup :=
  (l.filter_sublist.map Prod.fst).nodup hnd

theorem isEmpty_iff_forall_lookupA {β : Type} (l : List (Int × β)) :
    l.isEmpty = true ↔ ∀ k, lookupA l k = none := by
  constructor
  · intro h k
    rw [List.isEmpty_iff.mp h]
    rfl
  · intro h
    rw [List.isEmpty_iff]
    by_contra hne
    obtain ⟨k, hk⟩ := exists_lookupA_of_ne_nil hne
    rw [h k] at hk
    exact absurd hk (by simp)

theorem any_false_iff_lookupA {l : List (Int × Bool)}
    (hnd : (l.map Prod.fst).Nodup) :
    (l.any (fun p => p.2 == false)) = true ↔ ∃ k, lookupA l k = some false := by
  induction l with
  | nil => simp [lookupA_nil]
  | cons hd tl ih =>
      obtain ⟨x, b⟩ := hd
      rw [List.map_cons, List.nodup_cons] at hnd
      obtain ⟨hx_notin, hnd_tl⟩ := hnd
      rw [List.any_cons]
      constructor
      · intro h
        rcases Bool.or_eq_true_iff.mp h with h1 | h2
        · have hb : b = false := by simpa using h1
          subst hb
          exact ⟨x, lookupA_head x false tl⟩
        · obtain ⟨k, hk⟩ := (ih hnd_tl).mp h2
          have hx : x ≠ k := by
            rintro rfl
            exact hx_notin ((lookupA_isSome_iff_mem tl x).mp (by simp [hk]))
          exact ⟨k, by rw [lookupA_cons, if_neg hx]; exact hk⟩
      · rintro ⟨k, hk⟩
        rw [lookupA_cons] at hk
        by_cases hx : x = k
        · rw [if_pos hx] at hk
          cases Option.some.inj hk
          simp
        · rw [if_neg hx] at hk
          rw [Bool.or_eq_true_iff]
          exact Or.inr ((ih hnd_tl).mpr ⟨k, hk⟩)

theorem firstFalseKey_some {tasks : List (Int × Bool)} {order : List Int} {k : Int}
    (h : firstFalseKey tasks order = some k) : lookupA tasks k = some false := by
  have := List.find?_some h
  simpa using this

theorem firstFalseKey_none {tasks : List (Int × Bool)} {order : List Int}
    (h : firstFalseKey tasks order = none) :
    ∀ k ∈ order, lookupA tasks k ≠ some false := by
  intro k hk
  have := List.find?_eq_none.mp h k hk
  simpa using this

/-! ## Preservation of the coordinator invariant -/

theorem inv_init (cfg : Config) (hm : 0 ≤ cfg.map_n) (hr : 0 ≤ cfg.reduce_n)
    (hw : 0 ≤ cfg.worker_n) : Inv cfg initState := by
  refine {
    map_id_low := le_refl 0
    map_id_high := hm
    map_keys := ?_
    map_lease_task := ?_
    map_lease_nodup := List.nodup_nil
    map_tasks_nodup := List.nodup_nil
    map_finish_done := ?_
    map_done_finish := ?_
    worker_low := le_refl 0
    worker_high := hw
    prepared_of_dispatch := ?_
    reduce_id_low := le_refl 0
    reduce_id_high := hr
    reduce_keys := ?_
    reduce_lease_task := ?_
    reduce_lease_nodup := List.nodup_nil
    reduce_tasks_nodup := List.nodup_nil
    reduce_finish_done := ?_ }
  · intro k
    simp [initState, lookupA_nil]
  · intro k hk
    exact absurd hk (by simp [initState, lookupA_nil])
  · intro hf
    exact absurd hf (by simp [initState])
  · intro hn hall
    obtain ⟨h1, -⟩ := hall 0 le_rfl hn
    exact absurd h1 (by simp [initState, lookupA_nil])
  · intro h0
    exact absurd h0 (by simp [initState])
  · intro k
    simp [initState, lookupA_nil]
  · intro k hk
    exact absurd hk (by simp [initState, lookupA_nil])
  · intro hf
    exact absurd hf (by simp [initState])

theorem inv_getWorkerId {cfg : Config} {s s' : CState} {r : Int} (hI : Inv cfg s)
    (h : getWorkerId cfg s = some (r, s')) : Inv cfg s' := by
  unfold getWorkerId at h
  split at h
  · exact absurd h (by simp)
  · next hne =>
      rw [Option.some.injEq, Prod.mk.injEq] at h
      obtain ⟨-, h2⟩ := h
      subst h2
      refine {
        map_id_low := hI.map_id_low
        map_id_high := hI.map_id_high
        map_keys := hI.map_keys
        map_lease_task := hI.map_lease_task
        map_lease_nodup := hI.map_lease_nodup
        map_tasks_nodup := hI.map_tasks_nodup
        map_finish_done := hI.map_finish_done
        map_done_finish := hI.map_done_finish
        worker_low := by
          show (0 : Int) ≤ s.worker_id + 1
          have := hI.worker_low
          omega
        worker_high := ?_
        prepared_of_dispatch := ?_
        reduce_id_low := hI.reduce_id_low
        reduce_id_high := hI.reduce_id_high
        reduce_keys := hI.reduce_keys
        reduce_lease_task := hI.reduce_lease_task
        reduce_lease_nodup := hI.reduce_lease_nodup
        reduce_tasks_nodup := hI.reduce_tasks_nodup
        reduce_finish_done := hI.reduce_finish_done }
      · show s.worker_id + 1 ≤ cfg.worker_n
        have := hI.worker_high
        omega
      · intro h0
        exact absurd (hI.prepared_of_dispatch h0) hne

theorem inv_renewMapLease {cfg : Config} {s s' : CState} {r : Bool}
    {id : Int} {now : Nat} (hI : Inv cfg s)
    (h : renewMapLease id now s = some (r, s')) : Inv cfg s' := by
  unfold renewMapLease at h
  split at h
  case isFalse => exact absurd h (by simp)
  case isTrue hl =>
      rw [Option.some.injEq, Prod.mk.injEq] at h
      obtain ⟨-, h2⟩ := h
      subst h2
      refine {
        map_id_low := hI.map_id_low
        map_id_high := hI.map_id_high
        map_keys := hI.map_keys
        map_lease_task := ?_
        map_lease_nodup := keys_nodup_insertA hI.map_lease_nodup id now
        map_tasks_nodup := hI.map_tasks_nodup
        map_finish_done := ?_
        map_done_finish := ?_
        worker_low := hI.worker_low
        worker_high := hI.worker_high
        prepared_of_dispatch := hI.prepared_of_dispatch
        reduce_id_low := hI.reduce_id_low
        reduce_id_high := hI.reduce_id_high
        reduce_keys := hI.reduce_keys
        reduce_lease_task := hI.reduce_lease_task
        reduce_lease_nodup := hI.reduce_lease_nodup
        reduce_tasks_nodup := hI.reduce_tasks_nodup
        reduce_finish_done := hI.reduce_finish_done }
      · intro k hk
        show lookupA s.map_tasks k = some true
        have hk' : (lookupA (insertA s.map_leases id now) k).isSome = true := hk
        rw [lookupA_insertA] at hk'
        by_cases hik : id = k
        · subst hik
          exact hI.map_lease_task id hl
        · rw [if_neg hik] at hk'
          exact hI.map_lease_task k hk'
      · intro hf
        exfalso
        obtain ⟨hid, hall⟩ := hI.map_finish_done hf
        have ht := hI.map_lease_task id hl
        have hrange := (hI.map_keys id).mp (by simp [ht])
        have := (hall id hrange.1 (by omega)).2
        rw [this] at hl
        exact absurd hl (by simp)
      · intro hn hall
        exfalso
        have ht := hI.map_lease_task id hl
        have hrange := (hI.map_keys id).mp (by simp [ht])
        have h2 : lookupA (insertA s.map_leases id now) id = none :=
          (hall id hrange.1 (by
            have := hI.map_id_high
            omega)).2
        rw [lookupA_insertA, if_pos rfl] at h2
        exact absurd h2 (by simp)

theorem inv_renewReduceLease {cfg : Config} {s s' : CState} {r : Bool}
    {id : Int} {now : Nat} (hI : Inv cfg s)
    (h : renewReduceLease id now s = some (r, s')) : Inv cfg s' := by
  unfold renewReduceLease at h
  split at h
  case isFalse => exact absurd h (by simp)
  case isTrue hl =>
      rw [Option.some.injEq, Prod.mk.injEq] at h
      obtain ⟨-, h2⟩ := h
      subst h2
      refine {
        map_id_low := hI.map_id_low
        map_id_high := hI.map_id_high
        map_keys := hI.map_keys
        map_lease_task := hI.map_lease_task
        map_lease_nodup := hI.map_lease_nodup
        map_tasks_nodup := hI.map_tasks_nodup
        map_finish_done := hI.map_finish_done
        map_done_finish := hI.map_done_finish
        worker_low := hI.worker_low
        worker_high := hI.worker_high
        prepared_of_dispatch := hI.prepared_of_dispatch
        reduce_id_low := hI.reduce_id_low
        reduce_id_high := hI.reduce_id_high
        reduce_keys := hI.reduce_keys
        reduce_lease_task := ?_
        reduce_lease_nodup := keys_nodup_insertA hI.reduce_lease_nodup id now
        reduce_tasks_nodup := hI.reduce_tasks_nodup
        reduce_finish_done := ?_ }
      · intro k hk
        show lookupA s.reduce_tasks k = some true
        have hk' : (lookupA (insertA s.reduce_leases id now) k).isSome = true := hk
        rw [lookupA_insertA] at hk'
        by_cases hik : id = k
        · subst hik
          exact hI.reduce_lease_task id hl
        · rw [if_neg hik] at hk'
          exact hI.reduce_lease_task k hk'
      · intro hf
        exfalso
        obtain ⟨hid, hall⟩ := hI.reduce_finish_done hf
        have ht := hI.reduce_lease_task id hl
        have hrange := (hI.reduce_keys id).mp (by simp [ht])
        have := (hall id hrange.1 (by omega)).2
        rw [this] at hl
        exact absurd hl (by simp)

theorem inv_checkLease {cfg : Config} {s s' : CState} {now : Nat} (hI : Inv cfg s)
    (h : checkLease now s = some s') : Inv cfg s' := by
  unfold checkLease at h
  split at h
  case isTrue hboth =>
      cases Option.some.inj h
      exact hI
  case isFalse hnboth =>
  split at h
  case isTrue hmf =>
      have hnrf : s.reduce_finish = false := by
        cases hrf : s.reduce_finish
        · rfl
        · exact absurd ⟨hmf, hrf⟩ hnboth
      split at h
      case isFalse => exact absurd h (by simp)
      case isTrue hguard =>
      cases Option.some.inj h
      refine {
        map_id_low := hI.map_id_low
        map_id_high := hI.map_id_high
        map_keys := hI.map_keys
        map_lease_task := hI.map_lease_task
        map_lease_nodup := hI.map_lease_nodup
        map_tasks_nodup := hI.map_tasks_nodup
        map_finish_done := hI.map_finish_done
        map_done_finish := hI.map_done_finish
        worker_low := hI.worker_low
        worker_high := hI.worker_high
        prepared_of_dispatch := hI.prepared_of_dispatch
        reduce_id_low := hI.reduce_id_low
        reduce_id_high := hI.reduce_id_high
        reduce_keys := ?_
        reduce_lease_task := ?_
        reduce_lease_nodup := keys_nodup_freshLeases hI.reduce_lease_nodup now
        reduce_tasks_nodup := ?_
        reduce_finish_done := ?_ }
      · intro k
        show (lookupA (sweepTasks s.reduce_tasks (staleKeys s.reduce_leases now)) k).isSome
          = true ↔ 0 ≤ k ∧ k < s.reduce_id
        rw [lookupA_sweepTasks, ← hI.reduce_keys k]
        cases lookupA s.reduce_tasks k <;> simp
      · intro k hk
        have hk' : (lookupA (freshLeases s.reduce_leases now) k).isSome = true := hk
        rw [lookupA_freshLeases hI.reduce_lease_nodup] at hk'
        show lookupA (sweepTasks s.reduce_tasks (staleKeys s.reduce_leases now)) k = some true
        rw [lookupA_sweepTasks]
        cases ho : lookupA s.reduce_leases k with
        | none =>
            rw [ho] at hk'
            exact absurd hk' (by simp)
        | some t =>
            rw [ho] at hk'
            by_cases hst : 5 ≤ now - t
            · rw [Option.some_bind, if_pos hst] at hk'
              exact absurd hk' (by simp)
            · have htask := hI.reduce_lease_task k (by simp [ho])
              rw [htask]
              have hnotin : k ∉ staleKeys s.reduce_leases now := by
                rw [mem_staleKeys hI.reduce_lease_nodup]
                rintro ⟨t', ht', hst'⟩
                rw [ho] at ht'
                cases Option.some.inj ht'
                exact hst hst'
              simp [hnotin]
      · show ((sweepTasks s.reduce_tasks (staleKeys s.reduce_leases now)).map Prod.fst).Nodup
        rw [keys_sweepTasks]
        exact hI.reduce_tasks_nodup
      · intro hf
        have : s.reduce_finish = true := hf
        rw [hnrf] at this
        exact absurd this (by simp)
  case isFalse hmf =>
      have hmf' : s.map_finish = false := by
        cases hx : s.map_finish
        · rfl
        · exact absurd hx hmf
      split at h
      case isFalse => exact absurd h (by simp)
      case isTrue hguard =>
      cases Option.some.inj h
      refine {
        map_id_low := hI.map_id_low
        map_id_high := hI.map_id_high
        map_keys := ?_
        map_lease_task := ?_
        map_lease_nodup := keys_nodup_freshLeases hI.map_lease_nodup now
        map_tasks_nodup := ?_
        map_finish_done := ?_
        map_done_finish := ?_
        worker_low := hI.worker_low
        worker_high := hI.worker_high
        prepared_of_dispatch := hI.prepared_of_dispatch
        reduce_id_low := hI.reduce_id_low
        reduce_id_high := hI.reduce_id_high
        reduce_keys := hI.reduce_keys
        reduce_lease_task := hI.reduce_lease_task
        reduce_lease_nodup := hI.reduce_lease_nodup
        reduce_tasks_nodup := hI.reduce_tasks_nodup
        reduce_finish_done := hI.reduce_finish_done }
      · intro k
        show (lookupA (sweepTasks s.map_tasks (staleKeys s.map_leases now)) k).isSome
          = true ↔ 0 ≤ k ∧ k < s.map_id
        rw [lookupA_sweepTasks, ← hI.map_keys k]
        cases lookupA s.map_tasks k <;> simp
      · intro k hk
        have hk' : (lookupA (freshLeases s.map_leases now) k).isSome = true := hk
        rw [lookupA_freshLeases hI.map_lease_nodup] at hk'
        show lookupA (sweepTasks s.map_tasks (staleKeys s.map_leases now)) k = some true
        rw [lookupA_sweepTasks]
        cases ho : lookupA s.map_leases k with
        | none =>
            rw [ho] at hk'
            exact absurd hk' (by simp)
        | some t =>
            rw [ho] at hk'
            by_cases hst : 5 ≤ now - t
            · rw [Option.some_bind, if_pos hst] at hk'
              exact absurd hk' (by simp)
            · have htask := hI.map_lease_task k (by simp [ho])
              rw [htask]
              have hnotin : k ∉ staleKeys s.map_leases now := by
                rw [mem_staleKeys hI.map_lease_nodup]
                rintro ⟨t', ht', hst'⟩
                rw [ho] at ht'
                cases Option.some.inj ht'
                exact hst hst'
              simp [hnotin]
      · show ((sweepTasks s.map_tasks (staleKeys s.map_leases now)).map Prod.fst).Nodup
        rw [keys_sweepTasks]
        exact hI.map_tasks_nodup
      · intro hf
        have : s.map_finish = true := hf
        rw [hmf'] at this
        exact absurd this (by simp)
      · intro hn hall
        exfalso
        have hallS : AllMapDone cfg s := by
          intro k hk0 hkn
          obtain ⟨h1, h2⟩ := hall k hk0 hkn
          have h1' : lookupA (sweepTasks s.map_tasks (staleKeys s.map_leases now)) k
              = some true := h1
          rw [lookupA_sweepTasks] at h1'
          have h2' : lookupA (freshLeases s.map_leases now) k = none := h2
          rw [lookupA_freshLeases hI.map_lease_nodup] at h2'
          cases ht : lookupA s.map_tasks k with
          | none =>
              rw [ht] at h1'
              exact absurd h1' (by simp)
          | some v =>
              rw [ht] at h1'
              have hnotin : k ∉ staleKeys s.map_leases now := by
                intro hmem
                rw [Option.map_eq_some'] at h1'
                obtain ⟨a, ha1, ha2⟩ := h1'
                rw [if_pos hmem] at ha2
                exact absurd ha2 (by simp)
              have hv : v = true := by
                rw [Option.map_eq_some'] at h1'
                obtain ⟨a, ha1, ha2⟩ := h1'
                cases Option.some.inj ha1
                rwa [if_neg hnotin] at ha2
              subst hv
              refine ⟨ht, ?_⟩
              cases hle : lookupA s.map_leases k with
              | none => rfl
              | some t =>
                  rw [hle, Option.some_bind] at h2'
                  by_cases hst : 5 ≤ now - t
                  · exact absurd ((mem_staleKeys hI.map_lease_nodup now k).mpr
                      ⟨t, hle, hst⟩) hnotin
                  · rw [if_neg hst] at h2'
                    exact absurd h2' (by simp)
        have := hI.map_done_finish hn hallS
        rw [hmf'] at this
        exact absurd this (by simp)

theorem inv_getMapTask {cfg : Config} {s s' : CState} {r : Int}
    {order : List Int} {now : Nat} (hI : Inv cfg s)
    (h : getMapTask cfg order now s = some (r, s')) : Inv cfg s' := by
  unfold getMapTask at h
  split at h
  case isTrue =>
      rw [Option.some.injEq, Prod.mk.injEq] at h
      obtain ⟨-, h2⟩ := h
      subst h2
      exact hI
  case isFalse hprep =>
  have hp : prepare cfg s = true := by
    cases hx : prepare cfg s
    · exact absurd (by simp [hx]) hprep
    · rfl
  have hpw : s.worker_id = cfg.worker_n := by
    simpa [prepare] using hp
  split at h
  case isTrue hex =>
      split at h
      case h_1 k hfk =>
          split at h
          case isTrue => exact absurd h (by simp)
          case isFalse hnl =>
              rw [Option.some.injEq, Prod.mk.injEq] at h
              obtain ⟨-, h2⟩ := h
              subst h2
              have hk : lookupA s.map_tasks k = some false := firstFalseKey_some hfk
              have hkrange : 0 ≤ k ∧ k < s.map_id :=
                (hI.map_keys k).mp (by simp [hk])
              refine {
                map_id_low := hI.map_id_low
                map_id_high := hI.map_id_high
                map_keys := ?_
                map_lease_task := ?_
                map_lease_nodup := keys_nodup_insertA hI.map_lease_nodup k now
                map_tasks_nodup := keys_nodup_insertA hI.map_tasks_nodup k true
                map_finish_done := ?_
                map_done_finish := ?_
                worker_low := hI.worker_low
                worker_high := hI.worker_high
                prepared_of_dispatch := hI.prepared_of_dispatch
                reduce_id_low := hI.reduce_id_low
                reduce_id_high := hI.reduce_id_high
                reduce_keys := hI.reduce_keys
                reduce_lease_task := hI.reduce_lease_task
                reduce_lease_nodup := hI.reduce_lease_nodup
                reduce_tasks_nodup := hI.reduce_tasks_nodup
                reduce_finish_done := hI.reduce_finish_done }
              · intro k'
                show (lookupA (insertA s.map_tasks k true) k').isSome
                  = true ↔ 0 ≤ k' ∧ k' < s.map_id
                rw [lookupA_insertA]
                by_cases hkk : k = k'
                · subst hkk
                  rw [if_pos rfl]
                  simp only [Option.isSome_some, true_iff]
                  exact hkrange
                · rw [if_neg hkk]
                  exact hI.map_keys k'
              · intro k' hk'
                show lookupA (insertA s.map_tasks k true) k' = some true
                have hk'2 : (lookupA (insertA s.map_leases k now) k').isSome = true := hk'
                rw [lookupA_insertA] at hk'2
                rw [lookupA_insertA]
                by_cases hkk : k = k'
                · rw [if_pos hkk]
                · rw [if_neg hkk] at hk'2
                  rw [if_neg hkk]
                  exact hI.map_lease_task k' hk'2
              · intro hf
                exfalso
                obtain ⟨-, hall⟩ := hI.map_finish_done hf
                have hT := (hall k hkrange.1 (by
                  have := hI.map_id_high
                  omega)).1
                rw [hT] at hk
                exact absurd (Option.some.inj hk) (by simp)
              · intro hn hall
                exfalso
                have h2 : lookupA (insertA s.map_leases k now) k = none :=
                  (hall k hkrange.1 (by
                    have := hI.map_id_high
                    omega)).2
                rw [lookupA_insertA, if_pos rfl] at h2
                exact absurd h2 (by simp)
      case h_2 hfk =>
          split at h <;>
          · rw [Option.some.injEq, Prod.mk.injEq] at h
            obtain ⟨-, h2⟩ := h
            subst h2
            exact hI
  case isFalse hex =>
      rw [Option.some.injEq, Prod.mk.injEq] at h
      obtain ⟨-, h2⟩ := h
      subst h2
      have hne : s.map_id ≠ cfg.map_n := fun hc => hex (Or.inl hc)
      have hnf : s.map_finish = false := by
        cases hx : s.map_finish
        · rfl
        · exact absurd (Or.inr (by rw [hx])) hex
      refine {
        map_id_low := by
          show (0 : Int) ≤ s.map_id + 1
          have := hI.map_id_low
          omega
        map_id_high := by
          show s.map_id + 1 ≤ cfg.map_n
          have := hI.map_id_high
          omega
        map_keys := ?_
        map_lease_task := ?_
        map_lease_nodup := keys_nodup_insertA hI.map_lease_nodup s.map_id now
        map_tasks_nodup := keys_nodup_insertA hI.map_tasks_nodup s.map_id true
        map_finish_done := ?_
        map_done_finish := ?_
        worker_low := hI.worker_low
        worker_high := hI.worker_high
        prepared_of_dispatch := fun _ => hpw
        reduce_id_low := hI.reduce_id_low
        reduce_id_high := hI.reduce_id_high
        reduce_keys := hI.reduce_keys
        reduce_lease_task := hI.reduce_lease_task
        reduce_lease_nodup := hI.reduce_lease_nodup
        reduce_tasks_nodup := hI.reduce_tasks_nodup
        reduce_finish_done := hI.reduce_finish_done }
      · intro k'
        show (lookupA (insertA s.map_tasks s.map_id true) k').isSome
          = true ↔ 0 ≤ k' ∧ k' < s.map_id + 1
        rw [lookupA_insertA]
        by_cases hkk : s.map_id = k'
        · subst hkk
          rw [if_pos rfl]
          simp only [Option.isSome_some, true_iff]
          have := hI.map_id_low
          exact ⟨this, by omega⟩
        · rw [if_neg hkk, hI.map_keys k']
          omega
      · intro k' hk'
        show lookupA (insertA s.map_tasks s.map_id true) k' = some true
        have hk'2 : (lookupA (insertA s.map_leases s.map_id now) k').isSome = true := hk'
        rw [lookupA_insertA] at hk'2
        rw [lookupA_insertA]
        by_cases hkk : s.map_id = k'
        · rw [if_pos hkk]
        · rw [if_neg hkk] at hk'2
          rw [if_neg hkk]
          exact hI.map_lease_task k' hk'2
      · intro hf
        have : s.map_finish = true := hf
        rw [hnf] at this
        exact absurd this (by simp)
      · intro hn hall
        exfalso
        have h2 : lookupA (insertA s.map_leases s.map_id now) s.map_id = none :=
          (hall s.map_id hI.map_id_low (by
            have := hI.map_id_high
            omega)).2
        rw [lookupA_insertA, if_pos rfl] at h2
        exact absurd h2 (by simp)

theorem inv_getReduceTask {cfg : Config} {s s' : CState} {r : Int}
    {order : List Int} {now : Nat} (hI : Inv cfg s)
    (h : getReduceTask cfg order now s = some (r, s')) : Inv cfg s' := by
  unfold getReduceTask at h
  split at h
  case isTrue =>
      rw [Option.some.injEq, Prod.mk.injEq] at h
      obtain ⟨-, h2⟩ := h
      subst h2
      exact hI
  case isFalse hmf =>
  split at h
  case isTrue hex =>
      split at h
      case h_1 k hfk =>
          split at h
          case isTrue => exact absurd h (by simp)
          case isFalse hnl =>
              rw [Option.some.injEq, Prod.mk.injEq] at h
              obtain ⟨-, h2⟩ := h
              subst h2
              have hk : lookupA s.reduce_tasks k = some false := firstFalseKey_some hfk
              have hkrange : 0 ≤ k ∧ k < s.reduce_id :=
                (hI.reduce_keys k).mp (by simp [hk])
              refine {
                map_id_low := hI.map_id_low
                map_id_high := hI.map_id_high
                map_keys := hI.map_keys
                map_lease_task := hI.map_lease_task
                map_lease_nodup := hI.map_lease_nodup
                map_tasks_nodup := hI.map_tasks_nodup
                map_finish_done := hI.map_finish_done
                map_done_finish := hI.map_done_finish
                worker_low := hI.worker_low
                worker_high := hI.worker_high
                prepared_of_dispatch := hI.prepared_of_dispatch
                reduce_id_low := hI.reduce_id_low
                reduce_id_high := hI.reduce_id_high
                reduce_keys := ?_
                reduce_lease_task := ?_
                reduce_lease_nodup := keys_nodup_insertA hI.reduce_lease_nodup k now
                reduce_tasks_nodup := keys_nodup_insertA hI.reduce_tasks_nodup k true
                reduce_finish_done := ?_ }
              · intro k'
                show (lookupA (insertA s.reduce_tasks k true) k').isSome
                  = true ↔ 0 ≤ k' ∧ k' < s.reduce_id
                rw [lookupA_insertA]
                by_cases hkk : k = k'
                · subst hkk
                  rw [if_pos rfl]
                  simp only [Option.isSome_some, true_iff]
                  exact hkrange
                · rw [if_neg hkk]
                  exact hI.reduce_keys k'
              · intro k' hk'
                show lookupA (insertA s.reduce_tasks k true) k' = some true
                have hk'2 : (lookupA (insertA s.reduce_leases k now) k').isSome = true := hk'
                rw [lookupA_insertA] at hk'2
                rw [lookupA_insertA]
                by_cases hkk : k = k'
                · rw [if_pos hkk]
                · rw [if_neg hkk] at hk'2
                  rw [if_neg hkk]
                  exact hI.reduce_lease_task k' hk'2
              · intro hf
                exfalso
                obtain ⟨-, hall⟩ := hI.reduce_finish_done hf
                have hT := (hall k hkrange.1 (by
                  have := hI.reduce_id_high
                  omega)).1
                rw [hT] at hk
                exact absurd (Option.some.inj hk) (by simp)
      case h_2 hfk =>
          split at h <;>
          · rw [Option.some.injEq, Prod.mk.injEq] at h
            obtain ⟨-, h2⟩ := h
            subst h2
            exact hI
  case isFalse hex =>
      rw [Option.some.injEq, Prod.mk.injEq] at h
      obtain ⟨-, h2⟩ := h
      subst h2
      have hne : s.reduce_id ≠ cfg.reduce_n := fun hc => hex (Or.inl hc)
      have hnf : s.reduce_finish = false := by
        cases hx : s.reduce_finish
        · rfl
        · exact absurd (Or.inr (by rw [hx])) hex
      refine {
        map_id_low := hI.map_id_low
        map_id_high := hI.map_id_high
        map_keys := hI.map_keys
        map_lease_task := hI.map_lease_task
        map_lease_nodup := hI.map_lease_nodup
        map_tasks_nodup := hI.map_tasks_nodup
        map_finish_done := hI.map_finish_done
        map_done_finish := hI.map_done_finish
        worker_low := hI.worker_low
        worker_high := hI.worker_high
        prepared_of_dispatch := hI.prepared_of_dispatch
        reduce_id_low := by
          show (0 : Int) ≤ s.reduce_id + 1
          have := hI.reduce_id_low
          omega
        reduce_id_high := by
          show s.reduce_id + 1 ≤ cfg.reduce_n
          have := hI.reduce_id_high
          omega
        reduce_keys := ?_
        reduce_lease_task := ?_
        reduce_lease_nodup := keys_nodup_insertA hI.reduce_lease_nodup s.reduce_id now
        reduce_tasks_nodup := keys_nodup_insertA hI.reduce_tasks_nodup s.reduce_id true
        reduce_finish_done := ?_ }
      · intro k'
        show (lookupA (insertA s.reduce_tasks s.reduce_id true) k').isSome
          = true ↔ 0 ≤ k' ∧ k' < s.reduce_id + 1
        rw [lookupA_insertA]
        by_cases hkk : s.reduce_id = k'
        · subst hkk
          rw [if_pos rfl]
          simp only [Option.isSome_some, true_iff]
          have := hI.reduce_id_low
          exact ⟨this, by omega⟩
        · rw [if_neg hkk, hI.reduce_keys k']
          omega
      · intro k' hk'
        show lookupA (insertA s.reduce_tasks s.reduce_id true) k' = some true
        have hk'2 : (lookupA (insertA s.reduce_leases s.reduce_id now) k').isSome = true := hk'
        rw [lookupA_insertA] at hk'2
        rw [lookupA_insertA]
        by_cases hkk : s.reduce_id = k'
        · rw [if_pos hkk]
        · rw [if_neg hkk] at hk'2
          rw [if_neg hkk]
          exact hI.reduce_lease_task k' hk'2
      · intro hf
        have : s.reduce_finish = true := hf
        rw [hnf] at this
        exact absurd this (by simp)

theorem lease_task_eraseA_map {cfg : Config} {s : CState} (hI : Inv cfg s) (id : Int) :
    ∀ k, (lookupA (eraseA s.map_leases id) k).isSome = true →
      lookupA s.map_tasks k = some true := by
  intro k hk
  rw [lookupA_eraseA] at hk
  by_cases hik : id = k
  · rw [if_pos hik] at hk
    exact absurd hk (by simp)
  · rw [if_neg hik] at hk
    exact hI.map_lease_task k hk

theorem lease_task_eraseA_reduce {cfg : Config} {s : CState} (hI : Inv cfg s) (id : Int) :
    ∀ k, (lookupA (eraseA s.reduce_leases id) k).isSome = true →
      lookupA s.reduce_tasks k = some true := by
  intro k hk
  rw [lookupA_eraseA] at hk
  by_cases hik : id = k
  · rw [if_pos hik] at hk
    exact absurd hk (by simp)
  · rw [if_neg hik] at hk
    exact hI.reduce_lease_task k hk

theorem inv_reportMapTaskFinish {cfg : Config} {s s' : CState} {r : Bool}
    {id : Int} (hI : Inv cfg s)
    (h : reportMapTaskFinish cfg id s = some (r, s')) : Inv cfg s' := by
  unfold reportMapTaskFinish at h
  split at h
  case isTrue => exact absurd h (by simp)
  case isFalse hts =>
  split at h
  case isTrue => exact absurd h (by simp)
  case isFalse hls =>
  have ht : lookupA s.map_tasks id = some true := not_not.mp hts
  have hl : (lookupA s.map_leases id).isSome = true := not_not.mp hls
  have hrange : 0 ≤ id ∧ id < s.map_id := (hI.map_keys id).mp (by simp [ht])
  split at h
  case isTrue hany =>
      rw [Option.some.injEq, Prod.mk.injEq] at h
      obtain ⟨-, h2⟩ := h
      subst h2
      refine {
        map_id_low := hI.map_id_low
        map_id_high := hI.map_id_high
        map_keys := hI.map_keys
        map_lease_task := lease_task_eraseA_map hI id
        map_lease_nodup := keys_nodup_eraseA hI.map_lease_nodup id
        map_tasks_nodup := hI.map_tasks_nodup
        map_finish_done := ?_
        map_done_finish := ?_
        worker_low := hI.worker_low
        worker_high := hI.worker_high
        prepared_of_dispatch := hI.prepared_of_dispatch
        reduce_id_low := hI.reduce_id_low
        reduce_id_high := hI.reduce_id_high
        reduce_keys := hI.reduce_keys
        reduce_lease_task := hI.reduce_lease_task
        reduce_lease_nodup := hI.reduce_lease_nodup
        reduce_tasks_nodup := hI.reduce_tasks_nodup
        reduce_finish_done := hI.reduce_finish_done }
      · intro hf
        obtain ⟨hid, hall⟩ := hI.map_finish_done hf
        refine ⟨hid, ?_⟩
        intro k h0 hk
        refine ⟨(hall k h0 hk).1, ?_⟩
        show lookupA (eraseA s.map_leases id) k = none
        rw [lookupA_eraseA]
        by_cases hik : id = k
        · rw [if_pos hik]
        · rw [if_neg hik]
          exact (hall k h0 hk).2
      · intro hn hall
        exfalso
        obtain ⟨k', hk'⟩ := (any_false_iff_lookupA hI.map_tasks_nodup).mp hany
        have hr' : 0 ≤ k' ∧ k' < s.map_id := (hI.map_keys k').mp (by simp [hk'])
        have hTrue : lookupA s.map_tasks k' = some true :=
          (hall k' hr'.1 (by
            have := hI.map_id_high
            omega)).1
        rw [hk'] at hTrue
        exact absurd (Option.some.inj hTrue) (by simp)
  case isFalse hany =>
  split at h
  case isTrue hne =>
      rw [Option.some.injEq, Prod.mk.injEq] at h
      obtain ⟨-, h2⟩ := h
      subst h2
      refine {
        map_id_low := hI.map_id_low
        map_id_high := hI.map_id_high
        map_keys := hI.map_keys
        map_lease_task := lease_task_eraseA_map hI id
        map_lease_nodup := keys_nodup_eraseA hI.map_lease_nodup id
        map_tasks_nodup := hI.map_tasks_nodup
        map_finish_done := ?_
        map_done_finish := ?_
        worker_low := hI.worker_low
        worker_high := hI.worker_high
        prepared_of_dispatch := hI.prepared_of_dispatch
        reduce_id_low := hI.reduce_id_low
        reduce_id_high := hI.reduce_id_high
        reduce_keys := hI.reduce_keys
        reduce_lease_task := hI.reduce_lease_task
        reduce_lease_nodup := hI.reduce_lease_nodup
        reduce_tasks_nodup := hI.reduce_tasks_nodup
        reduce_finish_done := hI.reduce_finish_done }
      · intro hf
        obtain ⟨hid, hall⟩ := hI.map_finish_done hf
        refine ⟨hid, ?_⟩
        intro k h0 hk
        refine ⟨(hall k h0 hk).1, ?_⟩
        show lookupA (eraseA s.map_leases id) k = none
        rw [lookupA_eraseA]
        by_cases hik : id = k
        · rw [if_pos hik]
        · rw [if_neg hik]
          exact (hall k h0 hk).2
      · intro hn hall
        exfalso
        have hnil : eraseA s.map_leases id ≠ [] := by
          intro hc
          rw [hc] at hne
          exact hne rfl
        obtain ⟨k', hk'⟩ := exists_lookupA_of_ne_nil hnil
        have htk' := lease_task_eraseA_map hI id k' hk'
        have hr' : 0 ≤ k' ∧ k' < s.map_id := (hI.map_keys k').mp (by simp [htk'])
        have hNone : lookupA (eraseA s.map_leases id) k' = none :=
          (hall k' hr'.1 (by
            have := hI.map_id_high
            omega)).2
        rw [hNone] at hk'
        exact absurd hk' (by simp)
  case isFalse hne =>
  have hempty : (eraseA s.map_leases id).isEmpty = true := by
    cases hx : (eraseA s.map_leases id).isEmpty
    · exact absurd (by rw [hx]; exact Bool.false_ne_true) hne
    · rfl
  split at h
  case isTrue hid =>
      rw [Option.some.injEq, Prod.mk.injEq] at h
      obtain ⟨-, h2⟩ := h
      subst h2
      refine {
        map_id_low := hI.map_id_low
        map_id_high := hI.map_id_high
        map_keys := hI.map_keys
        map_lease_task := lease_task_eraseA_map hI id
        map_lease_nodup := keys_nodup_eraseA hI.map_lease_nodup id
        map_tasks_nodup := hI.map_tasks_nodup
        map_finish_done := ?_
        map_done_finish := fun _ _ => rfl
        worker_low := hI.worker_low
        worker_high := hI.worker_high
        prepared_of_dispatch := hI.prepared_of_dispatch
        reduce_id_low := hI.reduce_id_low
        reduce_id_high := hI.reduce_id_high
        reduce_keys := hI.reduce_keys
        reduce_lease_task := hI.reduce_lease_task
        reduce_lease_nodup := hI.reduce_lease_nodup
        reduce_tasks_nodup := hI.reduce_tasks_nodup
        reduce_finish_done := hI.reduce_finish_done }
      intro _
      refine ⟨hid, ?_⟩
      intro k h0 hk
      constructor
      · show lookupA s.map_tasks k = some true
        have hsome : (lookupA s.map_tasks k).isSome = true :=
          (hI.map_keys k).mpr ⟨h0, by omega⟩
        cases hv : lookupA s.map_tasks k with
        | none =>
            rw [hv] at hsome
            exact absurd hsome (by simp)
        | some v =>
            cases v
            · exact absurd ((any_false_iff_lookupA hI.map_tasks_nodup).mpr ⟨k, hv⟩) hany
            · rfl
      · show lookupA (eraseA s.map_leases id) k = none
        exact (isEmpty_iff_forall_lookupA _).mp hempty k
  case isFalse hid =>
      rw [Option.some.injEq, Prod.mk.injEq] at h
      obtain ⟨-, h2⟩ := h
      subst h2
      refine {
        map_id_low := hI.map_id_low
        map_id_high := hI.map_id_high
        map_keys := hI.map_keys
        map_lease_task := lease_task_eraseA_map hI id
        map_lease_nodup := keys_nodup_eraseA hI.map_lease_nodup id
        map_tasks_nodup := hI.map_tasks_nodup
        map_finish_done := ?_
        map_done_finish := ?_
        worker_low := hI.worker_low
        worker_high := hI.worker_high
        prepared_of_dispatch := hI.prepared_of_dispatch
        reduce_id_low := hI.reduce_id_low
        reduce_id_high := hI.reduce_id_high
        reduce_keys := hI.reduce_keys
        reduce_lease_task := hI.reduce_lease_task
        reduce_lease_nodup := hI.reduce_lease_nodup
        reduce_tasks_nodup := hI.reduce_tasks_nodup
        reduce_finish_done := hI.reduce_finish_done }
      · intro hf
        obtain ⟨hid', -⟩ := hI.map_finish_done hf
        exact absurd hid' hid
      · intro hn hall
        exfalso
        have hsome : (lookupA s.map_tasks (cfg.map_n - 1)).isSome = true := by
          have hTrue : lookupA s.map_tasks (cfg.map_n - 1) = some true :=
            (hall (cfg.map_n - 1) (by omega) (by omega)).1
          simp [hTrue]
        have := (hI.map_keys (cfg.map_n - 1)).mp hsome
        have := hI.map_id_high
        omega

theorem inv_reportReduceTaskFinish {cfg : Config} {s s' : CState} {r : Bool}
    {id : Int} (hI : Inv cfg s)
    (h : reportReduceTaskFinish cfg id s = some (r, s')) : Inv cfg s' := by
  unfold reportReduceTaskFinish at h
  split at h
  case isTrue => exact absurd h (by simp)
  case isFalse hts =>
  split at h
  case isTrue => exact absurd h (by simp)
  case isFalse hls =>
  have ht : lookupA s.reduce_tasks id = some true := not_not.mp hts
  have hl : (lookupA s.reduce_leases id).isSome = true := not_not.mp hls
  have hfinish_done_erase : s.reduce_finish = true →
      s.reduce_id = cfg.reduce_n ∧
      ∀ k, 0 ≤ k → k < cfg.reduce_n →
        lookupA s.reduce_tasks k = some true ∧
        lookupA (eraseA s.reduce_leases id) k = none := by
    intro hf
    obtain ⟨hid, hall⟩ := hI.reduce_finish_done hf
    refine ⟨hid, ?_⟩
    intro k h0 hk
    refine ⟨(hall k h0 hk).1, ?_⟩
    rw [lookupA_eraseA]
    by_cases hik : id = k
    · rw [if_pos hik]
    · rw [if_neg hik]
      exact (hall k h0 hk).2
  split at h
  case isTrue hany =>
      rw [Option.some.injEq, Prod.mk.injEq] at h
      obtain ⟨-, h2⟩ := h
      subst h2
      exact {
        map_id_low := hI.map_id_low
        map_id_high := hI.map_id_high
        map_keys := hI.map_keys
        map_lease_task := hI.map_lease_task
        map_lease_nodup := hI.map_lease_nodup
        map_tasks_nodup := hI.map_tasks_nodup
        map_finish_done := hI.map_finish_done
        map_done_finish := hI.map_done_finish
        worker_low := hI.worker_low
        worker_high := hI.worker_high
        prepared_of_dispatch := hI.prepared_of_dispatch
        reduce_id_low := hI.reduce_id_low
        reduce_id_high := hI.reduce_id_high
        reduce_keys := hI.reduce_keys
        reduce_lease_task := lease_task_eraseA_reduce hI id
        reduce_lease_nodup := keys_nodup_eraseA hI.reduce_lease_nodup id
        reduce_tasks_nodup := hI.reduce_tasks_nodup
        reduce_finish_done := hfinish_done_erase }
  case isFalse hany =>
  split at h
  case isTrue hne =>
      rw [Option.some.injEq, Prod.mk.injEq] at h
      obtain ⟨-, h2⟩ := h
      subst h2
      exact {
        map_id_low := hI.map_id_low
        map_id_high := hI.map_id_high
        map_keys := hI.map_keys
        map_lease_task := hI.map_lease_task
        map_lease_nodup := hI.map_lease_nodup
        map_tasks_nodup := hI.map_tasks_nodup
        map_finish_done := hI.map_finish_done
        map_done_finish := hI.map_done_finish
        worker_low := hI.worker_low
        worker_high := hI.worker_high
        prepared_of_dispatch := hI.prepared_of_dispatch
        reduce_id_low := hI.reduce_id_low
        reduce_id_high := hI.reduce_id_high
        reduce_keys := hI.reduce_keys
        reduce_lease_task := lease_task_eraseA_reduce hI id
        reduce_lease_nodup := keys_nodup_eraseA hI.reduce_lease_nodup id
        reduce_tasks_nodup := hI.reduce_tasks_nodup
        reduce_finish_done := hfinish_done_erase }
  case isFalse hne =>
  have hempty : (eraseA s.reduce_leases id).isEmpty = true := by
    cases hx : (eraseA s.reduce_leases id).isEmpty
    · exact absurd (by rw [hx]; exact Bool.false_ne_true) hne
    · rfl
  split at h
  case isTrue hid =>
      rw [Option.some.injEq, Prod.mk.injEq] at h
      obtain ⟨-, h2⟩ := h
      subst h2
      refine {
        map_id_low := hI.map_id_low
        map_id_high := hI.map_id_high
        map_keys := hI.map_keys
        map_lease_task := hI.map_lease_task
        map_lease_nodup := hI.map_lease_nodup
        map_tasks_nodup := hI.map_tasks_nodup
        map_finish_done := hI.map_finish_done
        map_done_finish := hI.map_done_finish
        worker_low := hI.worker_low
        worker_high := hI.worker_high
        prepared_of_dispatch := hI.prepared_of_dispatch
        reduce_id_low := hI.reduce_id_low
        reduce_id_high := hI.reduce_id_high
        reduce_keys := hI.reduce_keys
        reduce_lease_task := lease_task_eraseA_reduce hI id
        reduce_lease_nodup := keys_nodup_eraseA hI.reduce_lease_nodup id
        reduce_tasks_nodup := hI.reduce_tasks_nodup
        reduce_finish_done := ?_ }
      intro _
      refine ⟨hid, ?_⟩
      intro k h0 hk
      constructor
      · show lookupA s.reduce_tasks k = some true
        have hsome : (lookupA s.reduce_tasks k).isSome = true :=
          (hI.reduce_keys k).mpr ⟨h0, by omega⟩
        cases hv : lookupA s.reduce_tasks k with
        | none =>
            rw [hv] at hsome
            exact absurd hsome (by simp)
        | some v =>
            cases v
            · exact absurd ((any_false_iff_lookupA hI.reduce_tasks_nodup).mpr ⟨k, hv⟩) hany
            · rfl
      · show lookupA (eraseA s.reduce_leases id) k = none
        exact (isEmpty_iff_forall_lookupA _).mp hempty k
  case isFalse hid =>
      rw [Option.some.injEq, Prod.mk.injEq] at h
      obtain ⟨-, h2⟩ := h
      subst h2
      refine {
        map_id_low := hI.map_id_low
        map_id_high := hI.map_id_high
        map_keys := hI.map_keys
        map_lease_task := hI.map_lease_task
        map_lease_nodup := hI.map_lease_nodup
        map_tasks_nodup := hI.map_tasks_nodup
        map_finish_done := hI.map_finish_done
        map_done_finish := hI.map_done_finish
        worker_low := hI.worker_low
        worker_high := hI.worker_high
        prepared_of_dispatch := hI.prepared_of_dispatch
        reduce_id_low := hI.reduce_id_low
        reduce_id_high := hI.reduce_id_high
        reduce_keys := hI.reduce_keys
        reduce_lease_task := lease_task_eraseA_reduce hI id
        reduce_lease_nodup := keys_nodup_eraseA hI.reduce_lease_nodup id
        reduce_tasks_nodup := hI.reduce_tasks_nodup
        reduce_finish_done := ?_ }
      intro hf
      obtain ⟨hid', -⟩ := hI.reduce_finish_done hf
      exact absurd hid' hid

theorem inv_step {cfg : Config} {s s' : CState} (hI : Inv cfg s)
    (h : Step cfg s s') : Inv cfg s' := by
  cases h with
  | workerId h => exact inv_getWorkerId hI h
  | mapTask order now horder h => exact inv_getMapTask hI h
  | reduceTask order now horder h => exact inv_getReduceTask hI h
  | reportMap id h => exact inv_reportMapTaskFinish hI h
  | reportReduce id h => exact inv_reportReduceTaskFinish hI h
  | renewMap id now h => exact inv_renewMapLease hI h
  | renewReduce id now h => exact inv_renewReduceLease hI h
  | lease now h => exact inv_checkLease hI h

theorem inv_reachable {cfg : Config} {s : CState} (hm : 0 ≤ cfg.map_n)
    (hr : 0 ≤ cfg.reduce_n) (hw : 0 ≤ cfg.worker_n)
    (h : Reachable cfg s) : Inv cfg s := by
  induction h with
  | refl => exact inv_init cfg hm hr hw
  | tail _ hstep ih => exact inv_step ih hstep

/-! ## Shape inversion for the dispatch and report operations -/

theorem getMapTask_cases {cfg : Config} {order : List Int} {now : Nat}
    {s s' : CState} {r : Int} (h : getMapTask cfg order now s = some (r, s')) :
    (prepare cfg s = false ∧ r = -2 ∧ s' = s) ∨
    ((s.map_id = cfg.map_n ∨ s.map_finish = true) ∧ prepare cfg s = true ∧
      (∃ k, firstFalseKey s.map_tasks order = some k ∧ r = k ∧
        lookupA s.map_tasks k = some false ∧
        (lookupA s.map_leases k).isSome = false ∧ s' = promoteMap k now s)) ∨
    ((s.map_id = cfg.map_n ∨ s.map_finish = true) ∧ prepare cfg s = true ∧
      firstFalseKey s.map_tasks order = none ∧ s.map_leases.isEmpty = true ∧
      r = -1 ∧ s' = s) ∨
    ((s.map_id = cfg.map_n ∨ s.map_finish = true) ∧ prepare cfg s = true ∧
      firstFalseKey s.map_tasks order = none ∧ s.map_leases.isEmpty = false ∧
      r = -3 ∧ s' = s) ∨
    (¬ (s.map_id = cfg.map_n ∨ s.map_finish = true) ∧ prepare cfg s = true ∧
      r = s.map_id ∧ s' = freshMapDispatch now s) := by
  unfold getMapTask at h
  split at h
  case isTrue hp =>
      rw [Option.some.injEq, Prod.mk.injEq] at h
      obtain ⟨h1, h2⟩ := h
      refine Or.inl ⟨?_, h1.symm, h2.symm⟩
      cases hx : prepare cfg s
      · rfl
      · exact absurd (by rw [hx]) hp
  case isFalse hp =>
  have hp' : prepare cfg s = true := by
    cases hx : prepare cfg s
    · exact absurd (by simp [hx]) hp
    · rfl
  split at h
  case isTrue hex =>
      split at h
      case h_1 k hfk =>
          split at h
          case isTrue => exact absurd h (by simp)
          case isFalse hnl =>
              rw [Option.some.injEq, Prod.mk.injEq] at h
              obtain ⟨h1, h2⟩ := h
              refine Or.inr (Or.inl ⟨hex, hp', k, hfk, h1.symm,
                firstFalseKey_some hfk, ?_, h2.symm⟩)
              cases hx : (lookupA s.map_leases k).isSome
              · rfl
              · exact absurd (by rw [hx]) hnl
      case h_2 hfk =>
          split at h
          case isTrue hemp =>
              rw [Option.some.injEq, Prod.mk.injEq] at h
              obtain ⟨h1, h2⟩ := h
              exact Or.inr (Or.inr (Or.inl ⟨hex, hp', hfk, hemp, h1.symm, h2.symm⟩))
          case isFalse hemp =>
              rw [Option.some.injEq, Prod.mk.injEq] at h
              obtain ⟨h1, h2⟩ := h
              refine Or.inr (Or.inr (Or.inr (Or.inl
                ⟨hex, hp', hfk, ?_, h1.symm, h2.symm⟩)))
              cases hx : (s.map_leases).isEmpty
              · rfl
              · exact absurd (by rw [hx]) hemp
  case isFalse hex =>
      rw [Option.some.injEq, Prod.mk.injEq] at h
      obtain ⟨h1, h2⟩ := h
      exact Or.inr (Or.inr (Or.inr (Or.inr ⟨hex, hp', h1.symm, h2.symm⟩)))

theorem getReduceTask_cases {cfg : Config} {order : List Int} {now : Nat}
    {s s' : CState} {r : Int} (h : getReduceTask cfg order now s = some (r, s')) :
    (s.map_finish = false ∧ r = -2 ∧ s' = s) ∨
    ((s.reduce_id = cfg.reduce_n ∨ s.reduce_finish = true) ∧ s.map_finish = true ∧
      (∃ k, firstFalseKey s.reduce_tasks order = some k ∧ r = k ∧
        lookupA s.reduce_tasks k = some false ∧
        (lookupA s.reduce_leases k).isSome = false ∧ s' = promoteReduce k now s)) ∨
    ((s.reduce_id = cfg.reduce_n ∨ s.reduce_finish = true) ∧ s.map_finish = true ∧
      firstFalseKey s.reduce_tasks order = none ∧ s.reduce_leases.isEmpty = true ∧
      r = -1 ∧ s' = s) ∨
    ((s.reduce_id = cfg.reduce_n ∨ s.reduce_finish = true) ∧ s.map_finish = true ∧
      firstFalseKey s.reduce_tasks order = none ∧ s.reduce_leases.isEmpty = false ∧
      r = -3 ∧ s' = s) ∨
    (¬ (s.reduce_id = cfg.reduce_n ∨ s.reduce_finish = true) ∧ s.map_finish = true ∧
      r = s.reduce_id ∧ s' = freshReduceDispatch now s) := by
  unfold getReduceTask at h
  split at h
  case isTrue hp =>
      rw [Option.some.injEq, Prod.mk.injEq] at h
      obtain ⟨h1, h2⟩ := h
      refine Or.inl ⟨?_, h1.symm, h2.symm⟩
      cases hx : s.map_finish
      · rfl
      · exact absurd (by rw [hx]) hp
  case isFalse hp =>
  have hp' : s.map_finish = true := by
    cases hx : s.map_finish
    · exact absurd (by simp [hx]) hp
    · rfl
  split at h
  case isTrue hex =>
      split at h
      case h_1 k hfk =>
          split at h
          case isTrue => exact absurd h (by simp)
          case isFalse hnl =>
              rw [Option.some.injEq, Prod.mk.injEq] at h
              obtain ⟨h1, h2⟩ := h
              refine Or.inr (Or.inl ⟨hex, hp', k, hfk, h1.symm,
                firstFalseKey_some hfk, ?_, h2.symm⟩)
              cases hx : (lookupA s.reduce_leases k).isSome
              · rfl
              · exact absurd (by rw [hx]) hnl
      case h_2 hfk =>
          split at h
          case isTrue hemp =>
              rw [Option.some.injEq, Prod.mk.injEq] at h
              obtain ⟨h1, h2⟩ := h
              exact Or.inr (Or.inr (Or.inl ⟨hex, hp', hfk, hemp, h1.symm, h2.symm⟩))
          case isFalse hemp =>
              rw [Option.some.injEq, Prod.mk.injEq] at h
              obtain ⟨h1, h2⟩ := h
              refine Or.inr (Or.inr (Or.inr (Or.inl
                ⟨hex, hp', hfk, ?_, h1.symm, h2.symm⟩)))
              cases hx : (s.reduce_leases).isEmpty
              · rfl
              · exact absurd (by rw [hx]) hemp
  case isFalse hex =>
      rw [Option.some.injEq, Prod.mk.injEq] at h
      obtain ⟨h1, h2⟩ := h
      exact Or.inr (Or.inr (Or.inr (Or.inr ⟨hex, hp', h1.symm, h2.symm⟩)))

theorem reportMapTaskFinish_cases {cfg : Config} {id : Int} {s s' : CState}
    {r : Bool} (h : reportMapTaskFinish cfg id s = some (r, s')) :
    r = true ∧
    lookupA s.map_tasks id = some true ∧
    (lookupA s.map_leases id).isSome = true ∧
    s'.map_tasks = s.map_tasks ∧ s'.map_id = s.map_id ∧
    s'.reduce_tasks = s.reduce_tasks ∧ s'.reduce_id = s.reduce_id ∧
    s'.worker_id = s.worker_id ∧ s'.reduce_finish = s.reduce_finish ∧
    s'.reduce_leases = s.reduce_leases ∧
    s'.map_leases = eraseA s.map_leases id ∧
    (s'.map_finish = s.map_finish ∨ s'.map_finish = true) := by
  unfold reportMapTaskFinish at h
  split at h
  case isTrue => exact absurd h (by simp)
  case isFalse hts =>
  split at h
  case isTrue => exact absurd h (by simp)
  case isFalse hls =>
  have ht : lookupA s.map_tasks id = some true := not_not.mp hts
  have hl : (lookupA s.map_leases id).isSome = true := not_not.mp hls
  split at h
  case isTrue =>
      rw [Option.some.injEq, Prod.mk.injEq] at h
      obtain ⟨h1, h2⟩ := h
      subst h2
      exact ⟨h1.symm, ht, hl, rfl, rfl, rfl, rfl, rfl, rfl, rfl, rfl, Or.inl rfl⟩
  case isFalse =>
  split at h
  case isTrue =>
      rw [Option.some.injEq, Prod.mk.injEq] at h
      obtain ⟨h1, h2⟩ := h
      subst h2
      exact ⟨h1.symm, ht, hl, rfl, rfl, rfl, rfl, rfl, rfl, rfl, rfl, Or.inl rfl⟩
  case isFalse =>
  split at h
  case isTrue =>
      rw [Option.some.injEq, Prod.mk.injEq] at h
      obtain ⟨h1, h2⟩ := h
      subst h2
      exact ⟨h1.symm, ht, hl, rfl, rfl, rfl, rfl, rfl, rfl, rfl, rfl, Or.inr rfl⟩
  case isFalse =>
      rw [Option.some.injEq, Prod.mk.injEq] at h
      obtain ⟨h1, h2⟩ := h
      subst h2
      exact ⟨h1.symm, ht, hl, rfl, rfl, rfl, rfl, rfl, rfl, rfl, rfl, Or.inl rfl⟩

theorem reportReduceTaskFinish_cases {cfg : Config} {id : Int} {s s' : CState}
    {r : Bool} (h : reportReduceTaskFinish cfg id s = some (r, s')) :
    r = true ∧
    lookupA s.reduce_tasks id = some true ∧
    (lookupA s.reduce_leases id).isSome = true ∧
    s'.reduce_tasks = s.reduce_tasks ∧ s'.reduce_id = s.reduce_id ∧
    s'.map_tasks = s.map_tasks ∧ s'.map_id = s.map_id ∧
    s'.worker_id = s.worker_id ∧ s'.map_finish = s.map_finish ∧
    s'.map_leases = s.map_leases ∧
    s'.reduce_leases = eraseA s.reduce_leases id ∧
    (s'.reduce_finish = s.reduce_finish ∨ s'.reduce_finish = true) := by
  unfold reportReduceTaskFinish at h
  split at h
  case isTrue => exact absurd h (by simp)
  case isFalse hts =>
  split at h
  case isTrue => exact absurd h (by simp)
  case isFalse hls =>
  have ht : lookupA s.reduce_tasks id = some true := not_not.mp hts
  have hl : (lookupA s.reduce_leases id).isSome = true := not_not.mp hls
  split at h
  case isTrue =>
      rw [Option.some.injEq, Prod.mk.injEq] at h
      obtain ⟨h1, h2⟩ := h
      subst h2
      exact ⟨h1.symm, ht, hl, rfl, rfl, rfl, rfl, rfl, rfl, rfl, rfl, Or.inl rfl⟩
  case isFalse =>
  split at h
  case isTrue =>
      rw [Option.some.injEq, Prod.mk.injEq] at h
      obtain ⟨h1, h2⟩ := h
      subst h2
      exact ⟨h1.symm, ht, hl, rfl, rfl, rfl, rfl, rfl, rfl, rfl, rfl, Or.inl rfl⟩
  case isFalse =>
  split at h
  case isTrue =>
      rw [Option.some.injEq, Prod.mk.injEq] at h
      obtain ⟨h1, h2⟩ := h
      subst h2
      exact ⟨h1.symm, ht, hl, rfl, rfl, rfl, rfl, rfl, rfl, rfl, rfl, Or.inr rfl⟩
  case isFalse =>
      rw [Option.some.injEq, Prod.mk.injEq] at h
      obtain ⟨h1, h2⟩ := h
      subst h2
      exact ⟨h1.symm, ht, hl, rfl, rfl, rfl, rfl, rfl, rfl, rfl, rfl, Or.inl rfl⟩

/-! ## Stability of the `DONE` task state -/

theorem done_stable_step {cfg : Config} {s s' : CState} (hI : Inv cfg s)
    (hstep : Step cfg s s') (k : Int) :
    (MapDoneT s k → MapDoneT s' k) ∧ (ReduceDoneT s k → ReduceDoneT s' k) := by
  cases hstep with
  | workerId h =>
      unfold getWorkerId at h
      split at h
      · exact absurd h (by simp)
      · rw [Option.some.injEq, Prod.mk.injEq] at h
        obtain ⟨-, h2⟩ := h
        subst h2
        exact ⟨fun hd => hd, fun hd => hd⟩
  | mapTask order now horder h =>
      rcases getMapTask_cases h with
        ⟨-, -, rfl⟩ |
        ⟨-, -, k0, -, -, hk0, hnl, rfl⟩ |
        ⟨-, -, -, -, -, rfl⟩ |
        ⟨-, -, -, -, -, rfl⟩ |
        ⟨-, -, -, rfl⟩
      · exact ⟨fun hd => hd, fun hd => hd⟩
      · refine ⟨?_, fun hd => hd⟩
        rintro ⟨htk, hlk⟩
        have hne : k0 ≠ k := by
          rintro rfl
          rw [hk0] at htk
          exact absurd (Option.some.inj htk) (by simp)
        constructor
        · show lookupA (insertA s.map_tasks k0 true) k = some true
          rw [lookupA_insertA, if_neg hne]
          exact htk
        · show lookupA (insertA s.map_leases k0 now) k = none
          rw [lookupA_insertA, if_neg hne]
          exact hlk
      · exact ⟨fun hd => hd, fun hd => hd⟩
      · exact ⟨fun hd => hd, fun hd => hd⟩
      · refine ⟨?_, fun hd => hd⟩
        rintro ⟨htk, hlk⟩
        have hne : s.map_id ≠ k := by
          rintro rfl
          have := (hI.map_keys s.map_id).mp (by simp [htk])
          omega
        constructor
        · show lookupA (insertA s.map_tasks s.map_id true) k = some true
          rw [lookupA_insertA, if_neg hne]
          exact htk
        · show lookupA (insertA s.map_leases s.map_id now) k = none
          rw [lookupA_insertA, if_neg hne]
          exact hlk
  | reduceTask order now horder h =>
      rcases getReduceTask_cases h with
        ⟨-, -, rfl⟩ |
        ⟨-, -, k0, -, -, hk0, hnl, rfl⟩ |
        ⟨-, -, -, -, -, rfl⟩ |
        ⟨-, -, -, -, -, rfl⟩ |
        ⟨-, -, -, rfl⟩
      · exact ⟨fun hd => hd, fun hd => hd⟩
      · refine ⟨fun hd => hd, ?_⟩
        rintro ⟨htk, hlk⟩
        have hne : k0 ≠ k := by
          rintro rfl
          rw [hk0] at htk
          exact absurd (Option.some.inj htk) (by simp)
        constructor
        · show lookupA (insertA s.reduce_tasks k0 true) k = some true
          rw [lookupA_insertA, if_neg hne]
          exact htk
        · show lookupA (insertA s.reduce_leases k0 now) k = none
          rw [lookupA_insertA, if_neg hne]
          exact hlk
      · exact ⟨fun hd => hd, fun hd => hd⟩
      · exact ⟨fun hd => hd, fun hd => hd⟩
      · refine ⟨fun hd => hd, ?_⟩
        rintro ⟨htk, hlk⟩
        have hne : s.reduce_id ≠ k := by
          rintro rfl
          have := (hI.reduce_keys s.reduce_id).mp (by simp [htk])
          omega
        constructor
        · show lookupA (insertA s.reduce_tasks s.reduce_id true) k = some true
          rw [lookupA_insertA, if_neg hne]
          exact htk
        · show lookupA (insertA s.reduce_leases s.reduce_id now) k = none
          rw [lookupA_insertA, if_neg hne]
          exact hlk
  | reportMap id h =>
      obtain ⟨-, -, -, hmt, -, hrt, -, -, -, hrl, hml, -⟩ :=
        reportMapTaskFinish_cases h
      constructor
      · rintro ⟨htk, hlk⟩
        refine ⟨by rw [hmt]; exact htk, ?_⟩
        rw [hml, lookupA_eraseA]
        by_cases hik : id = k
        · rw [if_pos hik]
        · rw [if_neg hik]
          exact hlk
      · rintro ⟨htk, hlk⟩
        exact ⟨by rw [hrt]; exact htk, by rw [hrl]; exact hlk⟩
  | reportReduce id h =>
      obtain ⟨-, -, -, hrt, -, hmt, -, -, -, hml, hrl, -⟩ :=
        reportReduceTaskFinish_cases h
      constructor
      · rintro ⟨htk, hlk⟩
        exact ⟨by rw [hmt]; exact htk, by rw [hml]; exact hlk⟩
      · rintro ⟨htk, hlk⟩
        refine ⟨by rw [hrt]; exact htk, ?_⟩
        rw [hrl, lookupA_eraseA]
        by_cases hik : id = k
        · rw [if_pos hik]
        · rw [if_neg hik]
          exact hlk
  | renewMap id now h =>
      unfold renewMapLease at h
      split at h
      case isFalse => exact absurd h (by simp)
      case isTrue hl =>
          rw [Option.some.injEq, Prod.mk.injEq] at h
          obtain ⟨-, h2⟩ := h
          subst h2
          refine ⟨?_, fun hd => hd⟩
          rintro ⟨htk, hlk⟩
          have hne : id ≠ k := by
            rintro rfl
            rw [hlk] at hl
            exact absurd hl (by simp)
          refine ⟨htk, ?_⟩
          show lookupA (insertA s.map_leases id now) k = none
          rw [lookupA_insertA, if_neg hne]
          exact hlk
  | renewReduce id now h =>
      unfold renewReduceLease at h
      split at h
      case isFalse => exact absurd h (by simp)
      case isTrue hl =>
          rw [Option.some.injEq, Prod.mk.injEq] at h
          obtain ⟨-, h2⟩ := h
          subst h2
          refine ⟨fun hd => hd, ?_⟩
          rintro ⟨htk, hlk⟩
          have hne : id ≠ k := by
            rintro rfl
            rw [hlk] at hl
            exact absurd hl (by simp)
          refine ⟨htk, ?_⟩
          show lookupA (insertA s.reduce_leases id now) k = none
          rw [lookupA_insertA, if_neg hne]
          exact hlk
  | lease now h =>
      unfold checkLease at h
      split at h
      case isTrue =>
          cases Option.some.inj h
          exact ⟨fun hd => hd, fun hd => hd⟩
      case isFalse =>
      split at h
      case isTrue hmf =>
          split at h
          case isFalse => exact absurd h (by simp)
          case isTrue hguard =>
              cases Option.some.inj h
              refine ⟨fun hd => hd, ?_⟩
              rintro ⟨htk, hlk⟩
              have hnotin : k ∉ staleKeys s.reduce_leases now := by
                rw [mem_staleKeys hI.reduce_lease_nodup]
                rintro ⟨t, ht, -⟩
                rw [hlk] at ht
                exact absurd ht (by simp)
              constructor
              · show lookupA (sweepTasks s.reduce_tasks (staleKeys s.reduce_leases now)) k
                  = some true
                rw [lookupA_sweepTasks, htk]
                simp [hnotin]
              · show lookupA (freshLeases s.reduce_leases now) k = none
                rw [lookupA_freshLeases hI.reduce_lease_nodup, hlk]
                rfl
      case isFalse hmf =>
          split at h
          case isFalse => exact absurd h (by simp)
          case isTrue hguard =>
              cases Option.some.inj h
              refine ⟨?_, fun hd => hd⟩
              rintro ⟨htk, hlk⟩
              have hnotin : k ∉ staleKeys s.map_leases now := by
                rw [mem_staleKeys hI.map_lease_nodup]
                rintro ⟨t, ht, -⟩
                rw [hlk] at ht
                exact absurd ht (by simp)
              constructor
              · show lookupA (sweepTasks s.map_tasks (staleKeys s.map_leases now)) k
                  = some true
                rw [lookupA_sweepTasks, htk]
                simp [hnotin]
              · show lookupA (freshLeases s.map_leases now) k = none
                rw [lookupA_freshLeases hI.map_lease_nodup, hlk]
                rfl

/-! ## Concrete reachable runs -/

theorem iterOrder_nil : IterOrder ([] : List (Int × Bool)) [] :=
  ⟨List.nodup_nil, by simp⟩

theorem reachable_stMapDone : Reachable cfg1 stMapDone := by
  have h1 : Step cfg1 initState stReg :=
    Step.workerId (show getWorkerId cfg1 initState = some (0, stReg) from rfl)
  have h2 : Step cfg1 stReg stDisp :=
    Step.mapTask [] 0 iterOrder_nil
      (show getMapTask cfg1 [] 0 stReg = some (0, stDisp) from rfl)
  have h3 : Step cfg1 stDisp stMapDone :=
    Step.reportMap 0
      (show reportMapTaskFinish cfg1 0 stDisp = some (true, stMapDone) from rfl)
  exact ((Relation.ReflTransGen.refl.tail h1).tail h2).tail h3

theorem reachable_stAllDone : Reachable cfg1 stAllDone := by
  have h4 : Step cfg1 stMapDone stRedDisp :=
    Step.reduceTask [] 5 iterOrder_nil
      (show getReduceTask cfg1 [] 5 stMapDone = some (0, stRedDisp) from rfl)
  have h5 : Step cfg1 stRedDisp stAllDone :=
    Step.reportReduce 0
      (show reportReduceTaskFinish cfg1 0 stRedDisp = some (true, stAllDone) from rfl)
  exact (reachable_stMapDone.tail h4).tail h5

theorem reachable_stPend2 : Reachable cfg2 stPend2 := by
  have h1 : Step cfg2 initState stReg :=
    Step.workerId (show getWorkerId cfg2 initState = some (0, stReg) from rfl)
  have h2 : Step cfg2 stReg stDisp :=
    Step.mapTask [] 0 iterOrder_nil
      (show getMapTask cfg2 [] 0 stReg = some (0, stDisp) from rfl)
  have h3 : Step cfg2 stDisp stDisp2 :=
    Step.mapTask [0] 0 ⟨by decide, fun k => Iff.rfl⟩
      (show getMapTask cfg2 [0] 0 stDisp = some (1, stDisp2) from rfl)
  have h4 : Step cfg2 stDisp2 stPend2 :=
    Step.lease 5 (show checkLease 5 stDisp2 = some stPend2 from rfl)
  exact (((Relation.ReflTransGen.refl.tail h1).tail h2).tail h3).tail h4

/-! ## The claims -/

/-- C3.  Phase invariant: in every coordinator state reachable by any
interleaving of the seven RPC operations and the lease sweeper, if the
map-finish flag is set (`phase = REDUCE_RUNNING`) then every map task is
`DONE` (every id in `[0, N_map)` was dispatched — `map_id = N_map` —,
its status entry is `true`, and no map lease is outstanding); and if the
reduce-finish flag is also set (`phase = FINISHED`) then every reduce
task is `DONE`. -/
theorem c3_phase_invariant (cfg : Config) (s : CState)
    (hm : 0 ≤ cfg.map_n) (hr : 0 ≤ cfg.reduce_n) (hw : 0 ≤ cfg.worker_n)
    (hreach : Reachable cfg s) :
    (s.map_finish = true →
      s.map_id = cfg.map_n ∧ ∀ k : Int, 0 ≤ k → k < cfg.map_n → MapDoneT s k) ∧
    (s.map_finish = true → s.reduce_finish = true →
      s.reduce_id = cfg.reduce_n ∧
        ∀ k : Int, 0 ≤ k → k < cfg.reduce_n → ReduceDoneT s k) := by
  have hI := inv_reachable hm hr hw hreach
  exact ⟨hI.map_finish_done, fun _ hrf => hI.reduce_finish_done hrf⟩

/-- Witness for C3 at the finished one-task run: the flags are set and
both tasks are `DONE`. -/
theorem c3_phase_invariant_witness :
    (0 : Int) ≤ cfg1.map_n ∧ stAllDone.map_finish = true ∧
    stAllDone.map_id = cfg1.map_n ∧ MapDoneT stAllDone 0 ∧
    stAllDone.reduce_id = cfg1.reduce_n ∧ ReduceDoneT stAllDone 0 := by
  have h := c3_phase_invariant cfg1 stAllDone (by decide) (by decide) (by decide)
    reachable_stAllDone
  refine ⟨by decide, rfl, (h.1 rfl).1, (h.1 rfl).2 0 (by decide) (by decide),
    (h.2 rfl rfl).1, (h.2 rfl rfl).2 0 (by decide) (by decide)⟩

/-- C4.  `DONE` stability: once a task `(phase, id)` is `DONE` (status
entry `true` and no outstanding lease) in a reachable state, no sequence
of subsequent operations — sweeper, re-dispatch scan, dispatch, report or
renewal — ever returns it to `PENDING` or makes it `IN_FLIGHT` again. -/
theorem c4_done_stable (cfg : Config) (s s' : CState) (k : Int)
    (hm : 0 ≤ cfg.map_n) (hr : 0 ≤ cfg.reduce_n) (hw : 0 ≤ cfg.worker_n)
    (hreach : Reachable cfg s)
    (hsteps : Relation.ReflTransGen (Step cfg) s s') :
    (MapDoneT s k → MapDoneT s' k) ∧ (ReduceDoneT s k → ReduceDoneT s' k) := by
  induction hsteps with
  | refl => exact ⟨fun hd => hd, fun hd => hd⟩
  | tail hsteps hstep ih =>
      have hI := inv_reachable hm hr hw (hreach.trans hsteps)
      have hstab := done_stable_step hI hstep k
      exact ⟨fun hd => hstab.1 (ih.1 hd), fun hd => hstab.2 (ih.2 hd)⟩

/-- Witness for C4: map task 0 is `DONE` after its report and stays
`DONE` across the reduce dispatch and reduce report that follow. -/
theorem c4_done_stable_witness :
    MapDoneT stMapDone 0 ∧ MapDoneT stAllDone 0 := by
  have hsteps : Relation.ReflTransGen (Step cfg1) stMapDone stAllDone := by
    have h4 : Step cfg1 stMapDone stRedDisp :=
      Step.reduceTask [] 5 iterOrder_nil
        (show getReduceTask cfg1 [] 5 stMapDone = some (0, stRedDisp) from rfl)
    have h5 : Step cfg1 stRedDisp stAllDone :=
      Step.reportReduce 0
        (show reportReduceTaskFinish cfg1 0 stRedDisp = some (true, stAllDone) from rfl)
    exact (Relation.ReflTransGen.refl.tail h4).tail h5
  have hd : MapDoneT stMapDone 0 := ⟨rfl, rfl⟩
  exact ⟨hd, (c4_done_stable cfg1 stMapDone stAllDone 0 (by decide) (by decide)
    (by decide) reachable_stMapDone hsteps).1 hd⟩

/-- C5.  Completion-report error handling: `report_map_task_finish id`
(and symmetrically the reduce report) is fatal to the coordinator —
an `assert!` fires — exactly when task `id` is not `IN_FLIGHT` (never
dispatched, demoted to `PENDING` by the sweeper, or already `DONE`);
when the task is `IN_FLIGHT` the call removes its lease and returns
`true`. -/
theorem c5_report_fatal_iff (cfg : Config) (s : CState) (id : Int) :
    (reportMapTaskFinish cfg id s = none ↔ ¬ MapInFlightT s id) ∧
    (MapInFlightT s id →
      ∃ s', reportMapTaskFinish cfg id s = some (true, s') ∧
        s'.map_leases = eraseA s.map_leases id) ∧
    (reportReduceTaskFinish cfg id s = none ↔ ¬ ReduceInFlightT s id) ∧
    (ReduceInFlightT s id →
      ∃ s', reportReduceTaskFinish cfg id s = some (true, s') ∧
        s'.reduce_leases = eraseA s.reduce_leases id) := by
  refine ⟨⟨?_, ?_⟩, ?_, ⟨?_, ?_⟩, ?_⟩
  · intro hnone hIF
    obtain ⟨ht, hl⟩ := hIF
    unfold reportMapTaskFinish at hnone
    rw [if_neg (not_not_intro ht), if_neg (not_not_intro hl)] at hnone
    split at hnone
    · exact absurd hnone (by simp)
    split at hnone
    · exact absurd hnone (by simp)
    split at hnone
    · exact absurd hnone (by simp)
    · exact absurd hnone (by simp)
  · intro hnIF
    unfold reportMapTaskFinish
    by_cases ht : lookupA s.map_tasks id = some true
    · rw [if_neg (not_not_intro ht)]
      by_cases hl : (lookupA s.map_leases id).isSome = true
      · exact absurd ⟨ht, hl⟩ hnIF
      · rw [if_pos hl]
    · rw [if_pos ht]
  · rintro ⟨ht, hl⟩
    unfold reportMapTaskFinish
    rw [if_neg (not_not_intro ht), if_neg (not_not_intro hl)]
    split
    · exact ⟨_, rfl, rfl⟩
    split
    · exact ⟨_, rfl, rfl⟩
    split
    · exact ⟨_, rfl, rfl⟩
    · exact ⟨_, rfl, rfl⟩
  · intro hnone hIF
    obtain ⟨ht, hl⟩ := hIF
    unfold reportReduceTaskFinish at hnone
    rw [if_neg (not_not_intro ht), if_neg (not_not_intro hl)] at hnone
    split at hnone
    · exact absurd hnone (by simp)
    split at hnone
    · exact absurd hnone (by simp)
    split at hnone
    · exact absurd hnone (by simp)
    · exact absurd hnone (by simp)
  · intro hnIF
    unfold reportReduceTaskFinish
    by_cases ht : lookupA s.reduce_tasks id = some true
    · rw [if_neg (not_not_intro ht)]
      by_cases hl : (lookupA s.reduce_leases id).isSome = true
      · exact absurd ⟨ht, hl⟩ hnIF
      · rw [if_pos hl]
    · rw [if_pos ht]
  · rintro ⟨ht, hl⟩
    unfold reportReduceTaskFinish
    rw [if_neg (not_not_intro ht), if_neg (not_not_intro hl)]
    split
    · exact ⟨_, rfl, rfl⟩
    split
    · exact ⟨_, rfl, rfl⟩
    split
    · exact ⟨_, rfl, rfl⟩
    · exact ⟨_, rfl, rfl⟩

/-- Witness for C5: a report for a `DONE` task (id 0 after its report),
for a never-dispatched id (5), and for a sweeper-demoted `PENDING` task
(id 1 under `cfg2`) are all fatal; a report for the `IN_FLIGHT` task 0
succeeds. -/
theorem c5_report_fatal_iff_witness :
    reportMapTaskFinish cfg1 0 stMapDone = none ∧
    reportMapTaskFinish cfg1 5 stDisp = none ∧
    reportMapTaskFinish cfg2 1 stPend2 = none ∧
    reportMapTaskFinish cfg1 0 stDisp = some (true, stMapDone) := by
  refine ⟨?_, ?_, ?_, rfl⟩
  · exact (c5_report_fatal_iff cfg1 stMapDone 0).1.mpr
      (fun h => Bool.false_ne_true h.2)
  · exact (c5_report_fatal_iff cfg1 stDisp 5).1.mpr
      (fun h => Option.noConfusion h.1)
  · exact (c5_report_fatal_iff cfg2 stPend2 1).1.mpr
      (fun h => Bool.false_ne_true (Option.some.inj
        (show (some false : Option Bool) = some true from h.1)))

/-- C6.  Phase advance on exhaustion: in every reachable coordinator
state in which all map tasks are `DONE` (with `N_map > 0`, as the CLI
requires), `get_map_task` returns `-1` without changing the state, and
on return the map-finish flag is set (`phase = REDUCE_RUNNING`) — so a
caller observing `-1` can rely on `phase = REDUCE_RUNNING`. -/
theorem c6_phase_advance (cfg : Config) (s : CState)
    (hm : 0 < cfg.map_n) (hr : 0 ≤ cfg.reduce_n) (hw : 0 ≤ cfg.worker_n)
    (hreach : Reachable cfg s) (hdone : AllMapDone cfg s)
    (order : List Int) (now : Nat) :
    getMapTask cfg order now s = some (-1, s) ∧ s.map_finish = true := by
  have hI := inv_reachable (le_of_lt hm) hr hw hreach
  have hfin : s.map_finish = true := hI.map_done_finish hm hdone
  have hprep : prepare cfg s = true := by
    have h0 : (lookupA s.map_tasks 0).isSome = true := by
      have := (hdone 0 le_rfl hm).1
      simp [this]
    have hrange := (hI.map_keys 0).mp h0
    have hw' := hI.prepared_of_dispatch (by omega)
    simp [prepare, hw']
  have hffk : firstFalseKey s.map_tasks order = none := by
    unfold firstFalseKey
    rw [List.find?_eq_none]
    intro k hk hfalse
    have hkf : lookupA s.map_tasks k = some false := by simpa using hfalse
    have hrange := (hI.map_keys k).mp (by simp [hkf])
    have := (hdone k hrange.1 (by
      have := hI.map_id_high
      omega)).1
    rw [this] at hkf
    exact absurd (Option.some.inj hkf) (by simp)
  have hemp : s.map_leases.isEmpty = true := by
    rw [List.isEmpty_iff]
    by_contra hne
    obtain ⟨k, hk⟩ := exists_lookupA_of_ne_nil hne
    have htk := hI.map_lease_task k hk
    have hrange := (hI.map_keys k).mp (by simp [htk])
    have := (hdone k hrange.1 (by
      have := hI.map_id_high
      omega)).2
    rw [this] at hk
    exact absurd hk (by simp)
  refine ⟨?_, hfin⟩
  unfold getMapTask
  rw [if_neg (not_not_intro hprep), if_pos (Or.inr hfin), hffk]
  show (if s.map_leases.isEmpty then some (-1, s) else some (-3, s)) = some (-1, s)
  rw [if_pos hemp]

/-- Witness for C6 at the state where map task 0 has been reported:
`get_map_task` answers `-1` and the flag is already set. -/
theorem c6_phase_advance_witness :
    getMapTask cfg1 [0] 7 stMapDone = some (-1, stMapDone) ∧
    stMapDone.map_finish = true := by
  refine c6_phase_advance cfg1 stMapDone (by decide) (by decide) (by decide)
    reachable_stMapDone ?_ [0] 7
  intro k h0 hk
  have hk0 : k = 0 := by
    have : cfg1.map_n = 1 := rfl
    omega
  subst hk0
  exact ⟨rfl, rfl⟩

/-- C10.  A completion report mutates only the lease map and possibly the
phase-finish flag: the per-task status maps, both next-id counters and
the worker-id counter are unchanged; the reported task's status entry is
still `true` afterwards, and with its lease removed the task is `DONE` —
the same status value as `IN_FLIGHT`, distinguishable only by the absence
of a lease. -/
theorem c10_report_frame (cfg : Config) (id : Int) (s s' : CState) :
    (∀ r, reportMapTaskFinish cfg id s = some (r, s') →
      r = true ∧
      s'.map_tasks = s.map_tasks ∧ s'.map_id = s.map_id ∧
      s'.reduce_tasks = s.reduce_tasks ∧ s'.reduce_id = s.reduce_id ∧
      s'.worker_id = s.worker_id ∧ s'.reduce_finish = s.reduce_finish ∧
      s'.reduce_leases = s.reduce_leases ∧
      s'.map_leases = eraseA s.map_leases id ∧
      (s'.map_finish = s.map_finish ∨ s'.map_finish = true) ∧
      lookupA s'.map_tasks id = some true ∧ lookupA s'.map_leases id = none) ∧
    (∀ r, reportReduceTaskFinish cfg id s = some (r, s') →
      r = true ∧
      s'.reduce_tasks = s.reduce_tasks ∧ s'.reduce_id = s.reduce_id ∧
      s'.map_tasks = s.map_tasks ∧ s'.map_id = s.map_id ∧
      s'.worker_id = s.worker_id ∧ s'.map_finish = s.map_finish ∧
      s'.map_leases = s.map_leases ∧
      s'.reduce_leases = eraseA s.reduce_leases id ∧
      (s'.reduce_finish = s.reduce_finish ∨ s'.reduce_finish = true) ∧
      lookupA s'.reduce_tasks id = some true ∧
      lookupA s'.reduce_leases id = none) := by
  constructor
  · intro r h
    obtain ⟨hr, ht, -, hmt, hmi, hrt, hri, hwk, hrf, hrl, hml, hmf⟩ :=
      reportMapTaskFinish_cases h
    refine ⟨hr, hmt, hmi, hrt, hri, hwk, hrf, hrl, hml, hmf, ?_, ?_⟩
    · rw [hmt]
      exact ht
    · rw [hml, lookupA_eraseA, if_pos rfl]
  · intro r h
    obtain ⟨hr, ht, -, hrt, hri, hmt, hmi, hwk, hmf, hml, hrl, hrf⟩ :=
      reportReduceTaskFinish_cases h
    refine ⟨hr, hrt, hri, hmt, hmi, hwk, hmf, hml, hrl, hrf, ?_, ?_⟩
    · rw [hrt]
      exact ht
    · rw [hrl, lookupA_eraseA, if_pos rfl]

/-- Witness for C10 at the report of map task 0: only the lease map and
the flag changed, and task 0 reads back as `DONE`. -/
theorem c10_report_frame_witness :
    stMapDone.map_tasks = stDisp.map_tasks ∧
    stMapDone.map_id = stDisp.map_id ∧
    stMapDone.worker_id = stDisp.worker_id ∧
    stMapDone.map_leases = eraseA stDisp.map_leases 0 ∧
    lookupA stMapDone.map_tasks 0 = some true ∧
    lookupA stMapDone.map_leases 0 = none := by
  have h := (c10_report_frame cfg1 0 stDisp stMapDone).1 true rfl
  exact ⟨h.2.1, h.2.2.1, h.2.2.2.2.2.1, h.2.2.2.2.2.2.2.2.1,
    h.2.2.2.2.2.2.2.2.2.2.1, h.2.2.2.2.2.2.2.2.2.2.2⟩

/-- C7 counterexample.  The claim says the re-dispatch path returns the
*smallest* `PENDING` task id.  In the reachable state `stPend2` both map
tasks 0 and 1 are `PENDING` (demoted by the sweeper), yet under the
`HashMap` iteration order `[1, 0]` — a valid order for this map —
`get_map_task` returns id 1, not the smallest id 0. -/
theorem c7_redispatch_not_smallest :
    Reachable cfg2 stPend2 ∧
    IterOrder stPend2.map_tasks [1, 0] ∧
    lookupA stPend2.map_tasks 0 = some false ∧
    lookupA stPend2.map_leases 0 = none ∧
    getMapTask cfg2 [1, 0] 5 stPend2 = some (1, promoteMap 1 5 stPend2) ∧
    (1 : Int) ≠ 0 := by
  exact ⟨reachable_stPend2, ⟨by decide, fun k => Iff.rfl⟩, rfl, rfl, rfl, by decide⟩

/-- C7 as amended.  Dispatch policy of `get_map_task`/`get_reduce_task`
over reachable states: fresh dispatch always takes priority — while
fresh ids remain (and the phase-finish flag is unset) the fresh id is
returned — and when fresh ids are exhausted the re-dispatch path returns
the *first* `PENDING` task id in the `HashMap`'s (unspecified) iteration
order, promoting exactly that task to `IN_FLIGHT` with a fresh lease;
the smallest pending id is not guaranteed. -/
theorem c7_dispatch_policy (cfg : Config) (s : CState)
    (hm : 0 ≤ cfg.map_n) (hr : 0 ≤ cfg.reduce_n) (hw : 0 ≤ cfg.worker_n)
    (hreach : Reachable cfg s) (order : List Int) (now : Nat) :
    (prepare cfg s = true → s.map_id ≠ cfg.map_n → s.map_finish = false →
      getMapTask cfg order now s = some (s.map_id, freshMapDispatch now s)) ∧
    (∀ k, (s.map_id = cfg.map_n ∨ s.map_finish = true) → prepare cfg s = true →
      firstFalseKey s.map_tasks order = some k →
      lookupA s.map_tasks k = some false ∧
      getMapTask cfg order now s = some (k, promoteMap k now s)) ∧
    (s.map_finish = true → s.reduce_id ≠ cfg.reduce_n → s.reduce_finish = false →
      getReduceTask cfg order now s = some (s.reduce_id, freshReduceDispatch now s)) ∧
    (∀ k, (s.reduce_id = cfg.reduce_n ∨ s.reduce_finish = true) →
      s.map_finish = true →
      firstFalseKey s.reduce_tasks order = some k →
      lookupA s.reduce_tasks k = some false ∧
      getReduceTask cfg order now s = some (k, promoteReduce k now s)) := by
  have hI := inv_reachable hm hr hw hreach
  refine ⟨?_, ?_, ?_, ?_⟩
  · intro hprep hne hnf
    unfold getMapTask
    rw [if_neg (not_not_intro hprep), if_neg (by
      rintro (hc | hc)
      · exact hne hc
      · rw [hnf] at hc
        exact Bool.false_ne_true hc)]
    rfl
  · intro k hex hprep hffk
    have hk : lookupA s.map_tasks k = some false := firstFalseKey_some hffk
    have hlf : (lookupA s.map_leases k).isSome = false := by
      cases hx : (lookupA s.map_leases k).isSome
      · rfl
      · have := hI.map_lease_task k hx
        rw [this] at hk
        exact absurd (Option.some.inj hk) (by simp)
    refine ⟨hk, ?_⟩
    unfold getMapTask
    rw [if_neg (not_not_intro hprep), if_pos hex, hffk]
    show (if (lookupA s.map_leases k).isSome then none
      else some (k, promoteMap k now s)) = some (k, promoteMap k now s)
    rw [if_neg (by rw [hlf]; exact Bool.false_ne_true)]
  · intro hmf hne hnf
    unfold getReduceTask
    rw [if_neg (not_not_intro hmf), if_neg (by
      rintro (hc | hc)
      · exact hne hc
      · rw [hnf] at hc
        exact Bool.false_ne_true hc)]
    rfl
  · intro k hex hmf hffk
    have hk : lookupA s.reduce_tasks k = some false := firstFalseKey_some hffk
    have hlf : (lookupA s.reduce_leases k).isSome = false := by
      cases hx : (lookupA s.reduce_leases k).isSome
      · rfl
      · have := hI.reduce_lease_task k hx
        rw [this] at hk
        exact absurd (Option.some.inj hk) (by simp)
    refine ⟨hk, ?_⟩
    unfold getReduceTask
    rw [if_neg (not_not_intro hmf), if_pos hex, hffk]
    show (if (lookupA s.reduce_leases k).isSome then none
      else some (k, promoteReduce k now s)) = some (k, promoteReduce k now s)
    rw [if_neg (by rw [hlf]; exact Bool.false_ne_true)]

/-- Witness for the amended C7: in `stPend2` under iteration order
`[1, 0]` the first pending id 1 is re-dispatched and promoted; in
`stReg` (fresh id 0 available) the fresh id is dispatched. -/
theorem c7_dispatch_policy_witness :
    lookupA stPend2.map_tasks 1 = some false ∧
    getMapTask cfg2 [1, 0] 5 stPend2 = some (1, promoteMap 1 5 stPend2) ∧
    getMapTask cfg2 [] 0 stReg = some (stReg.map_id, freshMapDispatch 0 stReg) := by
  have h := c7_dispatch_policy cfg2 stPend2 (by decide) (by decide) (by decide)
    reachable_stPend2 [1, 0] 5
  have h2 := h.2.1 1 (Or.inl rfl) rfl rfl
  have hfresh := (c7_dispatch_policy cfg2 stReg (by decide) (by decide) (by decide)
    (Relation.ReflTransGen.refl.tail (Step.workerId
      (show getWorkerId cfg2 initState = some (0, stReg) from rfl))) [] 0).1
    rfl (by decide) rfl
  exact ⟨h2.1, h2.2, hfresh⟩

/-- C9.  Deterministic partitioning: `cal_hash_for_key` is built on
`DefaultHasher::new()`, whose keys are fixed rather than drawn from the
per-process random state, so two evaluations in two different processes
yield the same 64-bit hash, the same partition index
`hash(key) % N_reduce` (which is always `< N_reduce`), and assign every
pair to the same intermediate file `mr-{i}-{j}.txt`. -/
theorem c9_deterministic_partition (r1 r2 : Nat × Nat) (key : String)
    (mapId : Int) (n : Nat) (hn : 0 < n) :
    calHashForKeyInProc r1 key = calHashForKeyInProc r2 key ∧
    partitionIndexInProc r1 n key < n ∧
    partitionIndexInProc r1 n key = partitionIndexInProc r2 n key ∧
    interFileName mapId (partitionIndexInProc r1 n key)
      = interFileName mapId (partitionIndexInProc r2 n key) :=
  ⟨rfl, Nat.mod_lt _ hn, rfl, rfl⟩

/-- Witness for C9 with two distinct process seeds and `N_reduce = 2`. -/
theorem c9_deterministic_partition_witness :
    0 < 2 ∧
    calHashForKeyInProc (0, 0) "a" = calHashForKeyInProc (99, 7) "a" ∧
    partitionIndexInProc (0, 0) 2 "a" < 2 ∧
    interFileName 0 (partitionIndexInProc (0, 0) 2 "a")
      = interFileName 0 (partitionIndexInProc (99, 7) 2 "a") := by
  have h := c9_deterministic_partition (0, 0) (99, 7) "a" 0 2 (by decide)
  exact ⟨by decide, h.1, h.2.1, h.2.2.2⟩

/-- C8 counterexample.  The claim says every output file is produced via
a fresh temporary file atomically renamed over the final name.  Both
worker write paths instead `create` the final name directly and append
to it in place: the traces contain a `create` of the final file and no
rename at all. -/
theorem c8_no_temp_rename :
    FsOp.create "mr-0-0.txt" ∈ writeKeyValueTrace wMap0 [KeyValue.mk "a" "1"] ∧
    ¬ WrittenAtomicallySpec (writeKeyValueTrace wMap0 [KeyValue.mk "a" "1"])
        "mr-0-0.txt" ∧
    FsOp.create "mr-0.txt" ∈ reduceTrace wRed0 [KeyValue.mk "a" "1"] ∧
    ¬ WrittenAtomicallySpec (reduceTrace wRed0 [KeyValue.mk "a" "1"])
        "mr-0.txt" := by
  refine ⟨by decide, ?_, by decide, ?_⟩
  · rintro ⟨-, hnc⟩
    exact absurd (hnc (FsOp.create "mr-0-0.txt") (by decide)) (by decide)
  · rintro ⟨-, hnc⟩
    exact absurd (hnc (FsOp.create "mr-0.txt") (by decide)) (by decide)

/-- C8 as amended.  Worker output files are created directly under their
final names (`mr-{i}-{j}.txt` in `write_key_value_to_file`, `mr-{j}.txt`
in `Worker::reduce`) and written in place: the operation traces contain
no rename, so no temporary-file/rename discipline protects a retry from
seeing a partially written file. -/
theorem c8_direct_create_write (w : WorkerSt) (pairs : List KeyValue) (j : Nat)
    (hj : j < w.reduce_n.toNat) :
    (∀ op ∈ writeKeyValueTrace w pairs, op.isRen = false) ∧
    (∀ op ∈ reduceTrace w pairs, op.isRen = false) ∧
    FsOp.create (interFileName w.map_task_id j) ∈ writeKeyValueTrace w pairs ∧
    FsOp.create (outFileName w.reduce_task_id) ∈ reduceTrace w pairs := by
  refine ⟨?_, ?_, ?_, ?_⟩
  · intro op hop
    unfold writeKeyValueTrace at hop
    rcases List.mem_append.mp hop with hmem | hmem
    · obtain ⟨j', -, rfl⟩ := List.mem_map.mp hmem
      rfl
    · obtain ⟨kv, -, rfl⟩ := List.mem_map.mp hmem
      rfl
  · intro op hop
    unfold reduceTrace at hop
    rcases List.mem_cons.mp hop with rfl | hmem
    · rfl
    · obtain ⟨line, -, rfl⟩ := List.mem_map.mp hmem
      rfl
  · unfold writeKeyValueTrace
    exact List.mem_append.mpr (Or.inl
      (List.mem_map.mpr ⟨j, List.mem_range.mpr hj, rfl⟩))
  · exact List.mem_cons_self _ _

/-- Witness for the amended C8 at the one-partition worker. -/
theorem c8_direct_create_write_witness :
    0 < wMap0.reduce_n.toNat ∧
    FsOp.create (interFileName wMap0.map_task_id 0)
      ∈ writeKeyValueTrace wMap0 [] ∧
    (∀ op ∈ writeKeyValueTrace wMap0 [], op.isRen = false) := by
  have h := c8_direct_create_write wMap0 [] 0 (by decide)
  exact ⟨by decide, h.2.2.1, h.1⟩

/-- C2 failing input, evaluated.  On the pairs
`[("a","1"), ("b","1")]` the reduce loop of `Worker::reduce` emits only
the line for key `"a"`: the final group — the largest key `"b"` — is
never flushed after the loop, while the specified behaviour (one
`KEY␠RESULT\n` line per group, ascending) yields both lines. -/
theorem c2_reduce_drops_last_group :
    reduceOutputLines [KeyValue.mk "a" "1", KeyValue.mk "b" "1"]
      = ["a 1\n"] ∧
    specReduceLines [KeyValue.mk "a" "1", KeyValue.mk "b" "1"]
      = ["a 1\n", "b 1\n"] ∧
    reduceOutputLines [KeyValue.mk "a" "1"] = [] ∧
    specReduceLines [KeyValue.mk "a" "1"] = ["a 1\n"] := by
  exact ⟨by decide, by decide, by decide, by decide⟩

/-- C1 failing input, evaluated end to end.  With `N_map = 1`,
`N_reduce = 1` and input `pg-0.txt = "a"`: the map phase writes the
single intermediate line `a 1`, which parses back to `[("a","1")]`, but
`Worker::reduce` then writes an *empty* `mr-0.txt`, while the reference
word-count of the input (via `wc::map`/`wc::reduce`) is `[("a","1")]` —
the round-trip fails on every input containing at least one word. -/
theorem c1_roundtrip_failure :
    parsePairs (intermediateContent wMap0 "a" 0) = some [KeyValue.mk "a" "1"] ∧
    reduceOutputLines [KeyValue.mk "a" "1"] = [] ∧
    specWordCount "a" = [("a", "1")] := by
  refine ⟨by decide, by decide, by decide⟩

end MapReduce
